import Mathlib

/-!
# Verification of the autoscan extraction pipeline

Shallow embedding of the core logic of the `hoya629/autoscan` document
ingestion app (validator, page-selection store, extraction orchestrator,
Upstage element mining, usage/cost ledger), with theorems settling the
frozen claims.  JavaScript numbers are modelled as exact rationals
(`JSNum` with explicit `nan` / `Infinity` variants); fallible code is
modelled with `Except`/`Option`.
-/

/-- A JavaScript number: finite (modelled exactly as a rational), `NaN`,
`Infinity` or `-Infinity`. -/
inductive JSNum where
  | fin (q : ℚ)
  | nan
  | inf
  | ninf
deriving DecidableEq, Repr

namespace JSNum

/-- JS truthiness of a number: falsy iff `0` or `NaN`. -/
def truthy : JSNum → Bool
  | fin q => q ≠ 0
  | nan => false
  | inf => true
  | ninf => true

def isFinite : JSNum → Prop
  | fin _ => True
  | _ => False

instance : DecidablePred isFinite := by
  intro n; unfold isFinite; cases n <;> infer_instance

end JSNum

/-- A JavaScript scalar value, as can appear in a field of a
JSON-parsed provider response object (`undefined` stands for a missing
field). -/
inductive JVal where
  | undef
  | null
  | bool (b : Bool)
  | num (n : JSNum)
  | str (s : String)
deriving DecidableEq, Repr

namespace JVal

/-- JS truthiness of a value. -/
def truthy : JVal → Bool
  | undef => false
  | null => false
  | bool b => b
  | num n => n.truthy
  | str s => s ≠ ""

def isStr : JVal → Prop
  | str _ => True
  | _ => False

instance : DecidablePred isStr := by
  intro v; unfold isStr; cases v <;> infer_instance

end JVal

/-! ## The `parseFloat` model

`jsParseFloat` follows the ECMAScript `parseFloat` algorithm: skip
leading whitespace, then take the longest prefix that is a valid
`StrDecimalLiteral` (optional sign, then either the literal word
`Infinity` or decimal digits with an optional fraction and an optional
exponent).  If no prefix parses, the result is `NaN`.  Finite values
are exact rationals. -/

namespace JSParse

def isWs (c : Char) : Bool :=
  c = ' ' || c = '\t' || c = '\n' || c = '\r' || c = '\x0b' || c = '\x0c' || c = ' '

def isDigit (c : Char) : Bool := '0' ≤ c && c ≤ '9'

def digitVal (c : Char) : ℕ := c.toNat - '0'.toNat

def digitsToNat (l : List Char) : ℕ := l.foldl (fun a c => 10 * a + digitVal c) 0

/-- Value of a fractional digit string, e.g. `34` after a point is `34/100`. -/
def fracVal (l : List Char) : ℚ := (digitsToNat l : ℚ) / 10 ^ l.length

/-- `leadsWith pre l` is true when `pre` is an initial segment of `l`. -/
def leadsWith : List Char → List Char → Bool
  | [], _ => true
  | _ :: _, [] => false
  | c :: cs, d :: ds => c = d && leadsWith cs ds

/-- Parse `DecimalDigits? (. DecimalDigits?)? ExponentPart?` at the head of
`l` (after any sign); `none` when there is no digit before the rest. -/
def parseDecimal (l : List Char) : Option ℚ :=
  let intDs := l.takeWhile isDigit
  let r1 := l.drop intDs.length
  let fracDs :=
    match r1 with
    | '.' :: t => t.takeWhile isDigit
    | _ => []
  let r2 :=
    match r1 with
    | '.' :: t => t.drop fracDs.length
    | _ => r1
  if intDs.isEmpty && fracDs.isEmpty then none
  else
    let mant : ℚ := (digitsToNat intDs : ℚ) + fracVal fracDs
    match r2 with
    | e :: t =>
      if e = 'e' || e = 'E' then
        let sgn : ℤ := match t with | '-' :: _ => -1 | _ => 1
        let t2 := match t with | '+' :: u => u | '-' :: u => u | _ => t
        let expDs := t2.takeWhile isDigit
        if expDs.isEmpty then some mant
        else some (mant * (10 : ℚ) ^ (sgn * (digitsToNat expDs : ℤ)))
      else some mant
    | [] => some mant

def parseFloatCore (s : List Char) : JSNum :=
  let l := s.dropWhile isWs
  let neg : Bool := match l with | '-' :: _ => true | _ => false
  let l1 := match l with | '+' :: t => t | '-' :: t => t | _ => l
  if leadsWith "Infinity".toList l1 then
    if neg then .ninf else .inf
  else
    match parseDecimal l1 with
    | some q => .fin (if neg then -q else q)
    | none => .nan

end JSParse

def jsParseFloat (s : String) : JSNum := JSParse.parseFloatCore s.toList

/-- `parseFloat(x)` for a non-string argument first converts `x` to a
string: numbers round-trip exactly, while `null`, `undefined` and
booleans stringify to words that parse as `NaN`. -/
def jsParseFloatVal : JVal → JSNum
  | .str s => jsParseFloat s
  | .num n => n
  | .undef => .nan
  | .null => .nan
  | .bool _ => .nan

/-! ## Field Schema and Validator

From `validateAndCleanExtractedData` (src/unnamed/part_002, the
up-to-date snapshot of index.tsx; lines 1913-1929):

    const cleanedData = ...
        date: data.date || "",
        quantity: parseFloat(data.quantity) || 0,
        amountUSD: parseFloat(data.amountUSD) || 0,
        commissionUSD: parseFloat(data.commissionUSD) || 0,
        totalUSD: parseFloat(data.totalUSD) || 0,
        totalKRW: parseFloat(data.totalKRW) || 0,
        balanceKRW: parseFloat(data.balanceKRW) || 0
-/

/-- The seven field projections of an arbitrary raw provider object; a
field that is missing on the object projects to `undefined`. -/
structure RawRecord where
  date : JVal
  quantity : JVal
  amountUSD : JVal
  commissionUSD : JVal
  totalUSD : JVal
  totalKRW : JVal
  balanceKRW : JVal
deriving DecidableEq, Repr

structure CleanRecord where
  date : JVal
  quantity : JSNum
  amountUSD : JSNum
  commissionUSD : JSNum
  totalUSD : JSNum
  totalKRW : JSNum
  balanceKRW : JSNum
deriving DecidableEq, Repr

/-- `x || 0` on a JS number: keep `x` when truthy, else `0`. -/
def orZero (n : JSNum) : JSNum := if n.truthy then n else .fin 0

/-- `validateAndCleanExtractedData`: total (the JS function cannot
throw), producing all seven fields. -/
def validateAndCleanExtractedData (data : RawRecord) : CleanRecord :=
  { date := if data.date.truthy then data.date else .str ""
    quantity := orZero (jsParseFloatVal data.quantity)
    amountUSD := orZero (jsParseFloatVal data.amountUSD)
    commissionUSD := orZero (jsParseFloatVal data.commissionUSD)
    totalUSD := orZero (jsParseFloatVal data.totalUSD)
    totalKRW := orZero (jsParseFloatVal data.totalKRW)
    balanceKRW := orZero (jsParseFloatVal data.balanceKRW) }

/-- `value.replace(/,/g, "")`. -/
def stripCommas (s : String) : String := ⟨s.toList.filter (· ≠ ',')⟩

/-- The string branch of the display formatter `safeToLocaleString`
(src/unnamed/part_002 lines 2200-2214): for a string argument it
computes `parseFloat(value.replace(/,/g, ""))` before formatting.
This, not the validator, is where thousands separators are stripped. -/
def safeToLocaleStringParse (s : String) : JSNum := jsParseFloat (stripCommas s)

lemma orZero_isFinite (n : JSNum) (h : n ≠ .inf) (h' : n ≠ .ninf) :
    (orZero n).isFinite := by
  cases n with
  | fin q =>
    unfold orZero
    by_cases hq : JSNum.truthy (.fin q) <;> simp [hq, JSNum.isFinite]
  | nan => simp [orZero, JSNum.truthy, JSNum.isFinite]
  | inf => exact absurd rfl h
  | ninf => exact absurd rfl h'

lemma orZero_nan : orZero .nan = .fin 0 := rfl

/-- C1 (amended): for every raw object, `validateAndCleanExtractedData`
returns a record with all seven fields present and never throws (it is a
total function); each numeric field is `0` whenever the source value is
missing or unparsable (`parseFloat` gives `NaN`), and is a finite number
whenever its `parseFloat` value is not `Infinity`; the `date` field is a
string whenever the raw date is a string, `null`, or missing.
(The unamended claim fails when the raw date is a number, which passes
through `data.date || ""` unchanged, or when a field is the string
"Infinity", which `parseFloat` keeps non-finite.) -/
theorem validateAndClean_wellTyped (data : RawRecord)
    (hd : data.date.isStr ∨ data.date = .null ∨ data.date = .undef)
    (h1 : jsParseFloatVal data.quantity ≠ .inf ∧ jsParseFloatVal data.quantity ≠ .ninf)
    (h2 : jsParseFloatVal data.amountUSD ≠ .inf ∧ jsParseFloatVal data.amountUSD ≠ .ninf)
    (h3 : jsParseFloatVal data.commissionUSD ≠ .inf ∧ jsParseFloatVal data.commissionUSD ≠ .ninf)
    (h4 : jsParseFloatVal data.totalUSD ≠ .inf ∧ jsParseFloatVal data.totalUSD ≠ .ninf)
    (h5 : jsParseFloatVal data.totalKRW ≠ .inf ∧ jsParseFloatVal data.totalKRW ≠ .ninf)
    (h6 : jsParseFloatVal data.balanceKRW ≠ .inf ∧ jsParseFloatVal data.balanceKRW ≠ .ninf) :
    (validateAndCleanExtractedData data).date.isStr
    ∧ (validateAndCleanExtractedData data).quantity.isFinite
    ∧ (validateAndCleanExtractedData data).amountUSD.isFinite
    ∧ (validateAndCleanExtractedData data).commissionUSD.isFinite
    ∧ (validateAndCleanExtractedData data).totalUSD.isFinite
    ∧ (validateAndCleanExtractedData data).totalKRW.isFinite
    ∧ (validateAndCleanExtractedData data).balanceKRW.isFinite
    ∧ (jsParseFloatVal data.quantity = .nan →
        (validateAndCleanExtractedData data).quantity = .fin 0)
    ∧ (jsParseFloatVal data.amountUSD = .nan →
        (validateAndCleanExtractedData data).amountUSD = .fin 0)
    ∧ (jsParseFloatVal data.commissionUSD = .nan →
        (validateAndCleanExtractedData data).commissionUSD = .fin 0)
    ∧ (jsParseFloatVal data.totalUSD = .nan →
        (validateAndCleanExtractedData data).totalUSD = .fin 0)
    ∧ (jsParseFloatVal data.totalKRW = .nan →
        (validateAndCleanExtractedData data).totalKRW = .fin 0)
    ∧ (jsParseFloatVal data.balanceKRW = .nan →
        (validateAndCleanExtractedData data).balanceKRW = .fin 0) := by
  refine ⟨?_, orZero_isFinite _ h1.1 h1.2, orZero_isFinite _ h2.1 h2.2,
    orZero_isFinite _ h3.1 h3.2, orZero_isFinite _ h4.1 h4.2,
    orZero_isFinite _ h5.1 h5.2, orZero_isFinite _ h6.1 h6.2,
    ?_, ?_, ?_, ?_, ?_, ?_⟩
  · rcases hd with h | h | h
    · show JVal.isStr (if data.date.truthy then data.date else .str "")
      by_cases ht : data.date.truthy
      · simpa [ht] using h
      · simp [ht, JVal.isStr]
    · show JVal.isStr (if data.date.truthy then data.date else .str "")
      simp [h, JVal.truthy, JVal.isStr]
    · show JVal.isStr (if data.date.truthy then data.date else .str "")
      simp [h, JVal.truthy, JVal.isStr]
  all_goals
    intro hnan
    show orZero _ = _
    rw [hnan]
    exact orZero_nan

/-- C1 witness: the amended theorem applied at a concrete raw object
that is missing two of the seven fields. -/
theorem validateAndClean_wellTyped_witness :
    (validateAndCleanExtractedData
      ⟨.str "2024-01-02", .str "12", .str "abc", .null, .undef, .str "3,4", .undef⟩).date.isStr
    ∧ (validateAndCleanExtractedData
      ⟨.str "2024-01-02", .str "12", .str "abc", .null, .undef, .str "3,4", .undef⟩).quantity.isFinite
    ∧ (validateAndCleanExtractedData
      ⟨.str "2024-01-02", .str "12", .str "abc", .null, .undef, .str "3,4", .undef⟩).amountUSD.isFinite
    ∧ (validateAndCleanExtractedData
      ⟨.str "2024-01-02", .str "12", .str "abc", .null, .undef, .str "3,4", .undef⟩).commissionUSD.isFinite
    ∧ (validateAndCleanExtractedData
      ⟨.str "2024-01-02", .str "12", .str "abc", .null, .undef, .str "3,4", .undef⟩).totalUSD.isFinite
    ∧ (validateAndCleanExtractedData
      ⟨.str "2024-01-02", .str "12", .str "abc", .null, .undef, .str "3,4", .undef⟩).totalKRW.isFinite
    ∧ (validateAndCleanExtractedData
      ⟨.str "2024-01-02", .str "12", .str "abc", .null, .undef, .str "3,4", .undef⟩).balanceKRW.isFinite
    ∧ (jsParseFloatVal (JVal.str "12") = .nan →
        (validateAndCleanExtractedData
          ⟨.str "2024-01-02", .str "12", .str "abc", .null, .undef, .str "3,4", .undef⟩).quantity = .fin 0)
    ∧ (jsParseFloatVal (JVal.str "abc") = .nan →
        (validateAndCleanExtractedData
          ⟨.str "2024-01-02", .str "12", .str "abc", .null, .undef, .str "3,4", .undef⟩).amountUSD = .fin 0)
    ∧ (jsParseFloatVal JVal.null = .nan →
        (validateAndCleanExtractedData
          ⟨.str "2024-01-02", .str "12", .str "abc", .null, .undef, .str "3,4", .undef⟩).commissionUSD = .fin 0)
    ∧ (jsParseFloatVal JVal.undef = .nan →
        (validateAndCleanExtractedData
          ⟨.str "2024-01-02", .str "12", .str "abc", .null, .undef, .str "3,4", .undef⟩).totalUSD = .fin 0)
    ∧ (jsParseFloatVal (JVal.str "3,4") = .nan →
        (validateAndCleanExtractedData
          ⟨.str "2024-01-02", .str "12", .str "abc", .null, .undef, .str "3,4", .undef⟩).totalKRW = .fin 0)
    ∧ (jsParseFloatVal JVal.undef = .nan →
        (validateAndCleanExtractedData
          ⟨.str "2024-01-02", .str "12", .str "abc", .null, .undef, .str "3,4", .undef⟩).balanceKRW = .fin 0) :=
  validateAndClean_wellTyped _ (Or.inl (by decide)) (by decide) (by decide)
    (by decide) (by decide) (by decide) (by decide)

/-- C1 counterexample: on the raw object with a numeric `date` and the
quantity string "Infinity", the cleaned date is not a string and the
cleaned quantity is not finite, refuting the claim as stated. -/
theorem validateAndClean_claim_cex :
    ¬ (validateAndCleanExtractedData
        ⟨.num (.fin 5), .str "Infinity", .undef, .undef, .undef, .undef, .undef⟩).date.isStr
    ∧ (validateAndCleanExtractedData
        ⟨.num (.fin 5), .str "Infinity", .undef, .undef, .undef, .undef, .undef⟩).quantity = .inf := by
  constructor
  · intro h
    simp [validateAndCleanExtractedData, JVal.truthy, JSNum.truthy, JVal.isStr] at h
  · decide

/-- C2 (amended): the numeric coercion of the validator does not strip
thousands separators: `parseFloat` stops at the comma, so the field
string "1,234.5" normalizes to `1`, while "", `null` and "abc"
normalize to `0`.  The comma-stripping step the claim describes lives in
the display formatter `safeToLocaleString`, whose string branch maps
"1,234.5" to `1234.5`. -/
theorem validator_coercion_amended :
    (validateAndCleanExtractedData
      ⟨.undef, .str "1,234.5", .undef, .undef, .undef, .undef, .undef⟩).quantity = .fin 1
    ∧ (validateAndCleanExtractedData
      ⟨.undef, .str "", .undef, .undef, .undef, .undef, .undef⟩).quantity = .fin 0
    ∧ (validateAndCleanExtractedData
      ⟨.undef, .null, .undef, .undef, .undef, .undef, .undef⟩).quantity = .fin 0
    ∧ (validateAndCleanExtractedData
      ⟨.undef, .str "abc", .undef, .undef, .undef, .undef, .undef⟩).quantity = .fin 0
    ∧ safeToLocaleStringParse "1,234.5" = .fin (2469 / 2) := by
  refine ⟨?_, ?_, ?_, ?_, ?_⟩ <;>
    simp [validateAndCleanExtractedData, orZero, jsParseFloatVal, jsParseFloat,
      safeToLocaleStringParse, stripCommas, JSParse.parseFloatCore, JSParse.parseDecimal,
      JSParse.leadsWith, JSParse.digitsToNat, JSParse.fracVal, JSParse.isWs,
      JSParse.isDigit, JSParse.digitVal, JSNum.truthy]
  norm_num

/-- C2 counterexample: the validator maps the field string "1,234.5" to
`1`, not to `1234.5` as the claim states. -/
theorem validator_coercion_claim_cex :
    (validateAndCleanExtractedData
      ⟨.undef, .str "1,234.5", .undef, .undef, .undef, .undef, .undef⟩).quantity = .fin 1
    ∧ JSNum.fin 1 ≠ JSNum.fin (2469 / 2) := by
  constructor
  · simp [validateAndCleanExtractedData, orZero, jsParseFloatVal, jsParseFloat,
      JSParse.parseFloatCore, JSParse.parseDecimal, JSParse.leadsWith, JSParse.digitsToNat,
      JSParse.fracVal, JSParse.isWs, JSParse.isDigit, JSParse.digitVal, JSNum.truthy]
  · intro h
    rw [JSNum.fin.injEq] at h
    norm_num at h

/-! ## Page Selection Store

From src/unnamed/part_002 (the current snapshot of index.tsx):
`handleImageFile` (1756-1782), `handlePdfFile` (1825-1888),
the thumbnail click handler (1590-1611), `removePage` (1632-1685) and
`undoLastDelete` (1687-1718).  The JS `Map` is modelled as an
association list in insertion order: `Map.set` on an existing key
updates the value in place, otherwise appends; `Map.delete` removes the
entry. -/

def mapHas {α : Type} (m : List (String × α)) (k : String) : Bool :=
  m.any (·.1 = k)

def mapGet {α : Type} : List (String × α) → String → Option α
  | [], _ => none
  | (k', v') :: rest, k => if k' = k then some v' else mapGet rest k

def mapSet {α : Type} : List (String × α) → String → α → List (String × α)
  | [], k, v => [(k, v)]
  | (k', v') :: rest, k, v =>
    if k' = k then (k, v) :: rest else (k', v') :: mapSet rest k v

def mapDelete {α : Type} : List (String × α) → String → List (String × α)
  | [], _ => []
  | (k', v') :: rest, k => if k' = k then rest else (k', v') :: mapDelete rest k

/-- A page ready for extraction (interface `PageData`); `pageNumber` is
present only for PDF pages. -/
structure PageData where
  data : String
  mimeType : String
  fileName : String
  pageNumber : Option ℕ
deriving DecidableEq, Repr

/-- `a.pageNumber || 0`, the sort key of the page sort comparator. -/
def pageKey (p : PageData) : ℕ := p.pageNumber.getD 0

/-- Stable insertion of a page into a list sorted by `pageKey`
(model of `Array.prototype.sort` with the comparator
`(a, b) => (a.pageNumber || 0) - (b.pageNumber || 0)`). -/
def insertByKey (p : PageData) : List PageData → List PageData
  | [] => [p]
  | q :: qs => if pageKey q ≤ pageKey p then q :: insertByKey p qs else p :: q :: qs

def sortPages : List PageData → List PageData
  | [] => []
  | p :: ps => insertByKey p (sortPages ps)

/-- The three module-level variables of the store. -/
structure StoreState where
  pdfFileGroups : List (String × List PageData)
  selectedPages : List PageData
  deleteHistory : List PageData
deriving DecidableEq, Repr

def initialStore : StoreState := ⟨[], [], []⟩

def MAX_UNDO_HISTORY : ℕ := 10

/-- The replacement loop of `handleImageFile`/`handlePdfFile`: for each
existing page of the replaced group, `selectedPages` is filtered by
`p.data !== existingPage.data`; the chain of filters equals one filter
with the conjunction of the conditions. -/
def filterSelectedNotIn (sel old : List PageData) : List PageData :=
  old.foldl (fun s ep => s.filter (fun p => p.data ≠ ep.data)) sel

/-- The store operations a user can trigger.  `toggleSelect` carries the
page whose thumbnail was clicked; thumbnails exist only for pages
currently rendered from `pdfFileGroups`, which the transition checks as
a guard. -/
inductive StoreOp where
  | addImageFile (name mimeType dataStr : String)
  | addPdfFile (name : String) (pageDatas : List String)
  | toggleSelect (p : PageData)
  | removePage (p : PageData)
  | undoLastDelete
deriving DecidableEq, Repr

/-- The group update of `removePage`: filter the owning group by
`p.data !== pageData.data`, deleting the group when it becomes empty. -/
def removePageGroups (groups : List (String × List PageData)) (p : PageData) :
    List (String × List PageData) :=
  match mapGet groups p.fileName with
  | some pages =>
    if (pages.filter (fun q => q.data ≠ p.data)).isEmpty then mapDelete groups p.fileName
    else mapSet groups p.fileName (pages.filter (fun q => q.data ≠ p.data))
  | none => groups

/-- The group update of `undoLastDelete`: push the restored page back
into its original file group and re-sort that group by page number. -/
def undoGroups (groups : List (String × List PageData)) (pd : PageData) :
    List (String × List PageData) :=
  match mapGet groups pd.fileName with
  | some pages => mapSet groups pd.fileName (sortPages (pages ++ [pd]))
  | none => mapSet groups pd.fileName [pd]

def applyOp (s : StoreState) : StoreOp → StoreState
  | .addImageFile name mime dataStr =>
    let pageData : PageData := ⟨dataStr, mime, name, none⟩
    let sel1 :=
      if mapHas s.pdfFileGroups name then
        filterSelectedNotIn s.selectedPages ((mapGet s.pdfFileGroups name).getD [])
      else s.selectedPages
    { pdfFileGroups := mapSet s.pdfFileGroups name [pageData]
      selectedPages := sel1 ++ [pageData]
      deleteHistory := s.deleteHistory }
  | .addPdfFile name datas =>
    let pages := (List.range datas.length).zip datas |>.map
      (fun id => ⟨id.2, "image/png", name, some (id.1 + 1)⟩)
    let sel1 :=
      if mapHas s.pdfFileGroups name then
        filterSelectedNotIn s.selectedPages ((mapGet s.pdfFileGroups name).getD [])
      else s.selectedPages
    { pdfFileGroups := mapSet s.pdfFileGroups name pages
      selectedPages := sel1 ++ pages
      deleteHistory := s.deleteHistory }
  | .toggleSelect p =>
    if s.pdfFileGroups.any (fun g => p ∈ g.2) then
      if s.selectedPages.any (fun sp => sp.data = p.data) then
        { s with selectedPages := s.selectedPages.filter (fun q => q.data ≠ p.data) }
      else
        { s with selectedPages := s.selectedPages ++ [p] }
    else s
  | .removePage p =>
    let hist1 := s.deleteHistory ++ [p]
    let hist2 := if MAX_UNDO_HISTORY < hist1.length then hist1.tail else hist1
    { pdfFileGroups := removePageGroups s.pdfFileGroups p
      selectedPages := s.selectedPages.filter (fun q => q.data ≠ p.data)
      deleteHistory := hist2 }
  | .undoLastDelete =>
    match s.deleteHistory.getLast? with
    | none => s
    | some pd =>
      { pdfFileGroups := undoGroups s.pdfFileGroups pd
        selectedPages := s.selectedPages
        deleteHistory := s.deleteHistory.dropLast }

def runStore (ops : List StoreOp) : StoreState := ops.foldl applyOp initialStore

section MapLemmas

variable {α : Type}

lemma mapGet_set_self (m : List (String × α)) (k : String) (v : α) :
    mapGet (mapSet m k v) k = some v := by
  induction m with
  | nil => simp [mapSet, mapGet]
  | cons hd t ih =>
    by_cases hk : hd.1 = k
    · simp [mapSet, hk, mapGet]
    · simpa [mapSet, hk, mapGet] using ih

lemma mapGet_set_ne (m : List (String × α)) (k : String) (v : α) (k' : String)
    (h : k' ≠ k) : mapGet (mapSet m k v) k' = mapGet m k' := by
  induction m with
  | nil =>
    simp only [mapSet, mapGet]
    rw [if_neg (fun hh : k = k' => h hh.symm)]
  | cons hd t ih =>
    simp only [mapSet]
    by_cases hk : hd.1 = k
    · rw [if_pos hk]
      simp only [mapGet]
      rw [if_neg (fun hh : k = k' => h hh.symm),
        if_neg (fun hh : hd.1 = k' => h ((hk ▸ hh : (k = k')).symm))]
    · rw [if_neg hk]
      simp only [mapGet]
      by_cases hk' : hd.1 = k'
      · rw [if_pos hk', if_pos hk']
      · rw [if_neg hk', if_neg hk', ih]

lemma mapGet_delete_ne (m : List (String × α)) (k k' : String) (h : k' ≠ k) :
    mapGet (mapDelete m k) k' = mapGet m k' := by
  induction m with
  | nil => simp [mapDelete]
  | cons hd t ih =>
    simp only [mapDelete]
    by_cases hk : hd.1 = k
    · rw [if_pos hk]
      simp only [mapGet]
      rw [if_neg (fun hh : hd.1 = k' => h ((hk ▸ hh : (k = k')).symm))]
    · rw [if_neg hk]
      simp only [mapGet]
      by_cases hk' : hd.1 = k'
      · rw [if_pos hk', if_pos hk']
      · rw [if_neg hk', if_neg hk', ih]

lemma mem_mapSet {m : List (String × α)} {k : String} {v : α} {g : String × α}
    (h : g ∈ mapSet m k v) : g ∈ m ∨ g = (k, v) := by
  induction m with
  | nil => simpa [mapSet] using h
  | cons hd t ih =>
    by_cases hk : hd.1 = k
    · simp only [mapSet, hk, if_pos rfl] at h
      rcases List.mem_cons.1 h with h | h
      · exact Or.inr h
      · exact Or.inl (List.mem_cons_of_mem _ h)
    · simp only [mapSet, hk, if_neg hk] at h
      rcases List.mem_cons.1 h with h | h
      · exact Or.inl (h ▸ List.mem_cons_self _ _)
      · rcases ih h with h | h
        · exact Or.inl (List.mem_cons_of_mem _ h)
        · exact Or.inr h

lemma mem_mapDelete {m : List (String × α)} {k : String} {g : String × α}
    (h : g ∈ mapDelete m k) : g ∈ m := by
  induction m with
  | nil => simp [mapDelete] at h
  | cons hd t ih =>
    by_cases hk : hd.1 = k
    · simp only [mapDelete, hk, if_pos rfl] at h
      exact List.mem_cons_of_mem _ h
    · simp only [mapDelete, hk, if_neg hk] at h
      rcases List.mem_cons.1 h with h | h
      · exact h ▸ List.mem_cons_self _ _
      · exact List.mem_cons_of_mem _ (ih h)

lemma mapHas_iff {m : List (String × α)} {k : String} :
    mapHas m k = true ↔ k ∈ m.map Prod.fst := by
  simp only [mapHas, List.any_eq_true, List.mem_map]
  constructor
  · rintro ⟨g, hg, he⟩
    exact ⟨g, hg, by simpa using he⟩
  · rintro ⟨g, hg, he⟩
    exact ⟨g, hg, by simpa using he⟩

lemma mapGet_none_of_not_has {m : List (String × α)} {k : String}
    (h : mapHas m k = false) : mapGet m k = none := by
  induction m with
  | nil => rfl
  | cons hd t ih =>
    simp only [mapHas, List.any_cons, Bool.or_eq_false_iff] at h
    have h1 : hd.1 ≠ k := by simpa using h.1
    simp only [mapGet, if_neg h1]
    exact ih (by simp [mapHas, h.2])

lemma mapGet_mem {m : List (String × α)} {k : String} {v : α}
    (h : mapGet m k = some v) : (k, v) ∈ m := by
  induction m with
  | nil => simp [mapGet] at h
  | cons hd t ih =>
    by_cases hk : hd.1 = k
    · simp only [mapGet, if_pos hk] at h
      obtain ⟨a, b⟩ := hd
      obtain rfl : b = v := by injection h
      obtain rfl : a = k := hk
      exact List.mem_cons_self _ _
    · simp only [mapGet, if_neg hk] at h
      exact List.mem_cons_of_mem _ (ih h)

lemma mapGet_of_mem_nodup {m : List (String × α)} {k : String} {v : α}
    (hn : (m.map Prod.fst).Nodup) (h : (k, v) ∈ m) : mapGet m k = some v := by
  induction m with
  | nil => simp at h
  | cons hd t ih =>
    simp only [List.map_cons, List.nodup_cons] at hn
    rcases List.mem_cons.1 h with h | h
    · simp [mapGet, ← h]
    · have hk : hd.1 ≠ k := by
        intro he
        exact hn.1 (he ▸ (List.mem_map.2 ⟨(k, v), h, rfl⟩))
      simp only [mapGet, if_neg hk]
      exact ih hn.2 h

lemma keys_mapSet (m : List (String × α)) (k : String) (v : α) :
    (mapSet m k v).map Prod.fst =
      if mapHas m k then m.map Prod.fst else m.map Prod.fst ++ [k] := by
  induction m with
  | nil => simp [mapSet, mapHas]
  | cons hd t ih =>
    by_cases hk : hd.1 = k
    · simp [mapSet, hk, mapHas, List.any_cons]
    · simp only [mapSet, if_neg hk, List.map_cons, ih, mapHas, List.any_cons]
      have : (decide (hd.1 = k)) = false := by simpa using hk
      simp only [this, Bool.false_or]
      split <;> simp [mapHas]

lemma nodupKeys_mapSet {m : List (String × α)} (k : String) (v : α)
    (hn : (m.map Prod.fst).Nodup) : ((mapSet m k v).map Prod.fst).Nodup := by
  rw [keys_mapSet]
  split
  · exact hn
  · next h =>
    have hk : k ∉ m.map Prod.fst := fun hc => by
      simp [mapHas_iff.2 hc] at h
    rw [List.nodup_append]
    refine ⟨hn, List.nodup_singleton k, fun a ha hb => ?_⟩
    rw [List.mem_singleton] at hb
    exact hk (hb ▸ ha)

lemma keys_mapDelete_sublist (m : List (String × α)) (k : String) :
    List.Sublist ((mapDelete m k).map Prod.fst) (m.map Prod.fst) := by
  induction m with
  | nil => simp [mapDelete]
  | cons hd t ih =>
    by_cases hk : hd.1 = k
    · simp only [mapDelete, if_pos hk, List.map_cons]
      exact (List.Sublist.refl _).cons _
    · simp only [mapDelete, if_neg hk, List.map_cons]
      exact ih.cons₂ _

lemma nodupKeys_mapDelete {m : List (String × α)} (k : String)
    (hn : (m.map Prod.fst).Nodup) : ((mapDelete m k).map Prod.fst).Nodup :=
  hn.sublist (keys_mapDelete_sublist m k)

end MapLemmas

section SortLemmas

lemma mem_insertByKey {x p : PageData} {l : List PageData} :
    x ∈ insertByKey p l ↔ x = p ∨ x ∈ l := by
  induction l with
  | nil => simp [insertByKey]
  | cons q qs ih =>
    simp only [insertByKey]
    split
    · simp only [List.mem_cons, ih]
      tauto
    · simp [List.mem_cons]

lemma mem_sortPages {x : PageData} {l : List PageData} :
    x ∈ sortPages l ↔ x ∈ l := by
  induction l with
  | nil => simp [sortPages]
  | cons p ps ih => simp [sortPages, mem_insertByKey, ih]

lemma sorted_insertByKey {p : PageData} {l : List PageData}
    (h : l.Pairwise (fun a b => pageKey a ≤ pageKey b)) :
    (insertByKey p l).Pairwise (fun a b => pageKey a ≤ pageKey b) := by
  induction l with
  | nil => simp [insertByKey]
  | cons q qs ih =>
    rcases List.pairwise_cons.1 h with ⟨hq, hqs⟩
    simp only [insertByKey]
    split
    · next hle =>
      refine List.pairwise_cons.2 ⟨fun b hb => ?_, ih hqs⟩
      rcases mem_insertByKey.1 hb with rfl | hb
      · exact hle
      · exact hq b hb
    · next hgt =>
      refine List.pairwise_cons.2 ⟨fun b hb => ?_, h⟩
      rcases List.mem_cons.1 hb with rfl | hb
      · exact le_of_not_le hgt
      · exact le_trans (le_of_not_le hgt) (hq b hb)

lemma sorted_sortPages (l : List PageData) :
    (sortPages l).Pairwise (fun a b => pageKey a ≤ pageKey b) := by
  induction l with
  | nil => simp [sortPages]
  | cons p ps ih => exact sorted_insertByKey ih

end SortLemmas

lemma mem_filterSelectedNotIn {x : PageData} {sel old : List PageData} :
    x ∈ filterSelectedNotIn sel old ↔ x ∈ sel ∧ ∀ ep ∈ old, x.data ≠ ep.data := by
  induction old generalizing sel with
  | nil => simp [filterSelectedNotIn]
  | cons ep t ih =>
    simp only [filterSelectedNotIn, List.foldl_cons] at *
    rw [ih]
    simp only [List.mem_filter, List.mem_cons, decide_eq_true_eq]
    constructor
    · rintro ⟨⟨hx, hne⟩, hall⟩
      refine ⟨hx, fun e he => ?_⟩
      rcases he with rfl | he
      · exact hne
      · exact hall e he
    · rintro ⟨hx, hall⟩
      exact ⟨⟨hx, hall ep (Or.inl rfl)⟩, fun e he => hall e (Or.inr he)⟩

/-- The store invariant: group keys are distinct, every page stored in a
group carries that group name as its `fileName`, and every selected
page is found in the group of its file. -/
def StoreInv (s : StoreState) : Prop :=
  ((s.pdfFileGroups.map Prod.fst).Nodup)
  ∧ (∀ g ∈ s.pdfFileGroups, ∀ p ∈ g.2, p.fileName = g.1)
  ∧ (∀ p ∈ s.selectedPages,
      ∃ pages, mapGet s.pdfFileGroups p.fileName = some pages ∧ p ∈ pages)

lemma storeInv_initial : StoreInv initialStore := by
  refine ⟨List.nodup_nil, ?_, ?_⟩ <;> simp [initialStore]

lemma removePageGroups_eq_some {groups : List (String × List PageData)}
    {p : PageData} {pages : List PageData}
    (h : mapGet groups p.fileName = some pages) :
    removePageGroups groups p =
      if (pages.filter (fun q => q.data ≠ p.data)).isEmpty then
        mapDelete groups p.fileName
      else mapSet groups p.fileName (pages.filter (fun q => q.data ≠ p.data)) := by
  unfold removePageGroups
  rw [h]

lemma removePageGroups_eq_none {groups : List (String × List PageData)}
    {p : PageData} (h : mapGet groups p.fileName = none) :
    removePageGroups groups p = groups := by
  unfold removePageGroups
  rw [h]

lemma undoGroups_eq_some {groups : List (String × List PageData)}
    {pd : PageData} {pages : List PageData}
    (h : mapGet groups pd.fileName = some pages) :
    undoGroups groups pd = mapSet groups pd.fileName (sortPages (pages ++ [pd])) := by
  unfold undoGroups
  rw [h]

lemma undoGroups_eq_none {groups : List (String × List PageData)}
    {pd : PageData} (h : mapGet groups pd.fileName = none) :
    undoGroups groups pd = mapSet groups pd.fileName [pd] := by
  unfold undoGroups
  rw [h]

lemma storeInv_addGroup (s : StoreState) (name : String) (newPages : List PageData)
    (hnames : ∀ p ∈ newPages, p.fileName = name) (hInv : StoreInv s) :
    StoreInv
      { pdfFileGroups := mapSet s.pdfFileGroups name newPages
        selectedPages :=
          (if mapHas s.pdfFileGroups name then
            filterSelectedNotIn s.selectedPages ((mapGet s.pdfFileGroups name).getD [])
          else s.selectedPages) ++ newPages
        deleteHistory := s.deleteHistory } := by
  obtain ⟨hnodup, hcoher, hsel⟩ := hInv
  refine ⟨nodupKeys_mapSet _ _ hnodup, ?_, ?_⟩
  · intro g hg p hp
    rcases mem_mapSet hg with hg | rfl
    · exact hcoher g hg p hp
    · exact hnames p hp
  · intro p hp
    rcases List.mem_append.1 hp with hp | hp
    · by_cases hhas : mapHas s.pdfFileGroups name
      · rw [if_pos hhas] at hp
        rcases mem_filterSelectedNotIn.1 hp with ⟨hps, hall⟩
        obtain ⟨pages0, hget, hmem⟩ := hsel p hps
        by_cases hfn : p.fileName = name
        · exfalso
          rw [hfn] at hget
          have hpm : p ∈ (mapGet s.pdfFileGroups name).getD [] := by
            rw [hget]; exact hmem
          exact hall p hpm rfl
        · exact ⟨pages0, by rw [mapGet_set_ne _ _ _ _ hfn]; exact hget, hmem⟩
      · rw [if_neg hhas] at hp
        obtain ⟨pages0, hget, hmem⟩ := hsel p hp
        by_cases hfn : p.fileName = name
        · exfalso
          rw [hfn, mapGet_none_of_not_has (Bool.not_eq_true _ ▸ hhas)] at hget
          exact Option.noConfusion hget
        · exact ⟨pages0, by rw [mapGet_set_ne _ _ _ _ hfn]; exact hget, hmem⟩
    · exact ⟨newPages, by rw [hnames p hp, mapGet_set_self], hp⟩

lemma storeInv_applyOp {s : StoreState} (op : StoreOp) (hInv : StoreInv s) :
    StoreInv (applyOp s op) := by
  obtain ⟨hnodup, hcoher, hsel⟩ := hInv
  cases op with
  | addImageFile name mime dataStr =>
    refine storeInv_addGroup s name _ ?_ ⟨hnodup, hcoher, hsel⟩
    intro p hp
    rw [List.mem_singleton] at hp
    subst hp
    rfl
  | addPdfFile name datas =>
    refine storeInv_addGroup s name _ ?_ ⟨hnodup, hcoher, hsel⟩
    intro p hp
    simp only [List.mem_map] at hp
    obtain ⟨id, _, rfl⟩ := hp
    rfl
  | toggleSelect p =>
    simp only [applyOp]
    split
    · next hguard =>
      have hex : ∃ g ∈ s.pdfFileGroups, p ∈ g.2 := by
        simpa using hguard
      split
      · refine ⟨hnodup, hcoher, fun q hq => hsel q (List.mem_of_mem_filter hq)⟩
      · refine ⟨hnodup, hcoher, fun q hq => ?_⟩
        rcases List.mem_append.1 hq with hq | hq
        · exact hsel q hq
        · rw [List.mem_singleton] at hq
          subst hq
          obtain ⟨g, hg, hpg⟩ := hex
          have hfn := hcoher g hg q hpg
          refine ⟨g.2, ?_, hpg⟩
          rw [hfn]
          exact mapGet_of_mem_nodup hnodup (by simpa using hg)
    · exact ⟨hnodup, hcoher, hsel⟩
  | removePage p =>
    have hsel' : ∀ q ∈ s.selectedPages.filter (fun r => r.data ≠ p.data),
        ∃ pages, mapGet (removePageGroups s.pdfFileGroups p) q.fileName = some pages
          ∧ q ∈ pages := by
      intro q hq'
      have hqs : q ∈ s.selectedPages := List.mem_of_mem_filter hq'
      have hqd : q.data ≠ p.data := by
        have := List.of_mem_filter hq'
        simpa using this
      obtain ⟨pages0, hget0, hmem0⟩ := hsel q hqs
      cases hget : mapGet s.pdfFileGroups p.fileName with
      | none =>
        rw [removePageGroups_eq_none hget]
        exact ⟨pages0, hget0, hmem0⟩
      | some pages =>
        rw [removePageGroups_eq_some hget]
        by_cases hfn : q.fileName = p.fileName
        · rw [hfn, hget] at hget0
          obtain rfl : pages = pages0 := by injection hget0
          have hqf : q ∈ pages.filter (fun r => r.data ≠ p.data) :=
            List.mem_filter.2 ⟨hmem0, by simpa using hqd⟩
          have hne : (pages.filter (fun r => r.data ≠ p.data)).isEmpty = false := by
            rw [Bool.eq_false_iff]
            intro he
            rw [List.isEmpty_iff] at he
            rw [he] at hqf
            exact absurd hqf (List.not_mem_nil _)
          rw [if_neg (fun hc => by rw [hne] at hc; exact Bool.false_ne_true hc)]
          exact ⟨_, by rw [hfn, mapGet_set_self], hqf⟩
        · by_cases he : (pages.filter (fun r => r.data ≠ p.data)).isEmpty
          · rw [if_pos he]
            exact ⟨pages0, by rw [mapGet_delete_ne _ _ _ hfn]; exact hget0, hmem0⟩
          · rw [if_neg he]
            exact ⟨pages0, by rw [mapGet_set_ne _ _ _ _ hfn]; exact hget0, hmem0⟩
    have hnodup' : ((removePageGroups s.pdfFileGroups p).map Prod.fst).Nodup := by
      cases hget : mapGet s.pdfFileGroups p.fileName with
      | none => rw [removePageGroups_eq_none hget]; exact hnodup
      | some pages =>
        rw [removePageGroups_eq_some hget]
        split
        · exact nodupKeys_mapDelete _ hnodup
        · exact nodupKeys_mapSet _ _ hnodup
    have hcoher' : ∀ g ∈ removePageGroups s.pdfFileGroups p, ∀ q ∈ g.2,
        q.fileName = g.1 := by
      cases hget : mapGet s.pdfFileGroups p.fileName with
      | none => rw [removePageGroups_eq_none hget]; exact hcoher
      | some pages =>
        rw [removePageGroups_eq_some hget]
        split
        · exact fun g hg => hcoher g (mem_mapDelete hg)
        · intro g hg q hq
          rcases mem_mapSet hg with hg | rfl
          · exact hcoher g hg q hq
          · exact hcoher (p.fileName, pages) (mapGet_mem hget) q (List.mem_of_mem_filter hq)
    exact ⟨hnodup', hcoher', hsel'⟩
  | undoLastDelete =>
    have hmain : ∀ pd : PageData,
        StoreInv ⟨undoGroups s.pdfFileGroups pd, s.selectedPages,
          s.deleteHistory.dropLast⟩ := by
      intro pd
      refine ⟨?_, ?_, ?_⟩
      · cases hget : mapGet s.pdfFileGroups pd.fileName with
        | none => rw [undoGroups_eq_none hget]; exact nodupKeys_mapSet _ _ hnodup
        | some pages => rw [undoGroups_eq_some hget]; exact nodupKeys_mapSet _ _ hnodup
      · cases hget : mapGet s.pdfFileGroups pd.fileName with
        | none =>
          rw [undoGroups_eq_none hget]
          intro g hg q hq
          rcases mem_mapSet hg with hg | rfl
          · exact hcoher g hg q hq
          · rw [List.mem_singleton] at hq
            subst hq
            rfl
        | some pages =>
          rw [undoGroups_eq_some hget]
          intro g hg q hq
          rcases mem_mapSet hg with hg | rfl
          · exact hcoher g hg q hq
          · rcases List.mem_append.1 (mem_sortPages.1 hq) with hq | hq
            · exact hcoher (pd.fileName, pages) (mapGet_mem hget) q hq
            · rw [List.mem_singleton] at hq
              subst hq
              rfl
      · intro q hq
        obtain ⟨pages0, hget0, hmem0⟩ := hsel q hq
        cases hget : mapGet s.pdfFileGroups pd.fileName with
        | none =>
          rw [undoGroups_eq_none hget]
          by_cases hfn : q.fileName = pd.fileName
          · exfalso
            rw [hfn, hget] at hget0
            exact Option.noConfusion hget0
          · exact ⟨pages0, by rw [mapGet_set_ne _ _ _ _ hfn]; exact hget0, hmem0⟩
        | some pages =>
          rw [undoGroups_eq_some hget]
          by_cases hfn : q.fileName = pd.fileName
          · rw [hfn, hget] at hget0
            obtain rfl : pages = pages0 := by injection hget0
            refine ⟨_, by rw [hfn, mapGet_set_self], ?_⟩
            exact mem_sortPages.2 (List.mem_append.2 (Or.inl hmem0))
          · exact ⟨pages0, by rw [mapGet_set_ne _ _ _ _ hfn]; exact hget0, hmem0⟩
    show StoreInv (applyOp s .undoLastDelete)
    simp only [applyOp]
    cases s.deleteHistory.getLast? with
    | none => exact ⟨hnodup, hcoher, hsel⟩
    | some pd => exact hmain pd

lemma storeInv_run (ops : List StoreOp) : StoreInv (runStore ops) := by
  have hgen : ∀ (l : List StoreOp) (s : StoreState), StoreInv s →
      StoreInv (l.foldl applyOp s) := by
    intro l
    induction l with
    | nil => exact fun s hs => hs
    | cons op t ih => exact fun s hs => ih _ (storeInv_applyOp op hs)
  exact hgen ops initialStore storeInv_initial

/-- C4: after every sequence of store operations (image/PDF file add,
toggle-select, page removal, undo), every selected page lies in the
union of the file groups, and in exactly one file group. -/
theorem pageStore_selected_invariant (ops : List StoreOp) :
    (∀ p ∈ (runStore ops).selectedPages,
      ∃ g ∈ (runStore ops).pdfFileGroups, p ∈ g.2)
    ∧ ∀ p ∈ (runStore ops).selectedPages,
        ∃! g : String × List PageData,
          g ∈ (runStore ops).pdfFileGroups ∧ p ∈ g.2 := by
  obtain ⟨hnodup, hcoher, hsel⟩ := storeInv_run ops
  constructor
  · intro p hp
    obtain ⟨pages, hget, hmem⟩ := hsel p hp
    exact ⟨(p.fileName, pages), mapGet_mem hget, hmem⟩
  · intro p hp
    obtain ⟨pages, hget, hmem⟩ := hsel p hp
    refine ⟨(p.fileName, pages), ⟨mapGet_mem hget, hmem⟩, ?_⟩
    rintro ⟨k, v⟩ ⟨hgv, hpv⟩
    have hk : p.fileName = k := hcoher (k, v) hgv p hpv
    have hv : mapGet (runStore ops).pdfFileGroups k = some v :=
      mapGet_of_mem_nodup hnodup hgv
    rw [← hk, hget] at hv
    obtain rfl : pages = v := by injection hv
    rw [hk]

lemma mapGet_delete_self_nodup {α : Type} {m : List (String × α)} {k : String}
    (hn : (m.map Prod.fst).Nodup) : mapGet (mapDelete m k) k = none := by
  induction m with
  | nil => rfl
  | cons hd t ih =>
    simp only [List.map_cons, List.nodup_cons] at hn
    by_cases hk : hd.1 = k
    · simp only [mapDelete, if_pos hk]
      apply mapGet_none_of_not_has
      rw [← Bool.not_eq_true, mapHas_iff]
      rw [← hk]
      exact hn.1
    · simp only [mapDelete, if_neg hk, mapGet, if_neg hk]
      exact ih hn.2

/-- C6: `removePage` removes the page from the selected set and from its
owning file group (deleting the group when it becomes empty), and pushes
it onto the undo stack, which stays bounded by 10 entries; a subsequent
`undoLastDelete` re-inserts the page into its original file group with
the group kept sorted by page number, and leaves the selected set
unchanged. -/
theorem removePage_undo_spec (s : StoreState) (p : PageData)
    (hn : (s.pdfFileGroups.map Prod.fst).Nodup) :
    (applyOp s (.removePage p)).selectedPages
        = s.selectedPages.filter (fun q => q.data ≠ p.data)
    ∧ (∀ pages, mapGet s.pdfFileGroups p.fileName = some pages →
        (pages.filter (fun q => q.data ≠ p.data) = [] →
            mapGet (applyOp s (.removePage p)).pdfFileGroups p.fileName = none)
        ∧ (pages.filter (fun q => q.data ≠ p.data) ≠ [] →
            mapGet (applyOp s (.removePage p)).pdfFileGroups p.fileName
              = some (pages.filter (fun q => q.data ≠ p.data))))
    ∧ (applyOp s (.removePage p)).deleteHistory.getLast? = some p
    ∧ (s.deleteHistory.length ≤ MAX_UNDO_HISTORY →
        (applyOp s (.removePage p)).deleteHistory.length ≤ MAX_UNDO_HISTORY)
    ∧ (applyOp (applyOp s (.removePage p)) .undoLastDelete).selectedPages
        = s.selectedPages.filter (fun q => q.data ≠ p.data)
    ∧ ∃ pages,
        mapGet (applyOp (applyOp s (.removePage p)) .undoLastDelete).pdfFileGroups
            p.fileName = some pages
        ∧ p ∈ pages
        ∧ pages.Pairwise (fun a b => pageKey a ≤ pageKey b) := by
  have hhist : (applyOp s (.removePage p)).deleteHistory.getLast? = some p := by
    show (if MAX_UNDO_HISTORY < (s.deleteHistory ++ [p]).length then
        (s.deleteHistory ++ [p]).tail else s.deleteHistory ++ [p]).getLast? = some p
    split
    · next hcap =>
      cases hd : s.deleteHistory with
      | nil =>
        rw [hd] at hcap
        simp [MAX_UNDO_HISTORY] at hcap
      | cons x t =>
        show (t ++ [p]).getLast? = some p
        exact List.getLast?_concat _
    · exact List.getLast?_concat _
  have hundo :
      applyOp (applyOp s (.removePage p)) .undoLastDelete =
        { pdfFileGroups :=
            undoGroups (applyOp s (.removePage p)).pdfFileGroups p
          selectedPages := (applyOp s (.removePage p)).selectedPages
          deleteHistory := (applyOp s (.removePage p)).deleteHistory.dropLast } := by
    show (match (applyOp s (.removePage p)).deleteHistory.getLast? with
      | none => applyOp s (.removePage p)
      | some pd =>
        { pdfFileGroups := undoGroups (applyOp s (.removePage p)).pdfFileGroups pd
          selectedPages := (applyOp s (.removePage p)).selectedPages
          deleteHistory := (applyOp s (.removePage p)).deleteHistory.dropLast }) = _
    rw [hhist]
  refine ⟨rfl, ?_, hhist, ?_, ?_, ?_⟩
  · intro pages hget
    constructor
    · intro hnil
      show mapGet (removePageGroups s.pdfFileGroups p) p.fileName = none
      rw [removePageGroups_eq_some hget, hnil]
      rw [if_pos List.isEmpty_nil]
      exact mapGet_delete_self_nodup hn
    · intro hne
      show mapGet (removePageGroups s.pdfFileGroups p) p.fileName
        = some (pages.filter (fun q => q.data ≠ p.data))
      rw [removePageGroups_eq_some hget]
      rw [if_neg (fun hc => hne (List.isEmpty_iff.1 hc))]
      exact mapGet_set_self _ _ _
  · intro hlen
    show (if MAX_UNDO_HISTORY < (s.deleteHistory ++ [p]).length then
        (s.deleteHistory ++ [p]).tail else s.deleteHistory ++ [p]).length
      ≤ MAX_UNDO_HISTORY
    split
    · next hcap =>
      rw [List.length_tail, List.length_append]
      simpa using hlen
    · next hcap =>
      rw [List.length_append] at hcap ⊢
      omega
  · rw [hundo]
    rfl
  · rw [hundo]
    show ∃ pages,
      mapGet (undoGroups (applyOp s (.removePage p)).pdfFileGroups p) p.fileName
        = some pages ∧ p ∈ pages ∧ pages.Pairwise (fun a b => pageKey a ≤ pageKey b)
    cases hget : mapGet (applyOp s (.removePage p)).pdfFileGroups p.fileName with
    | none =>
      rw [undoGroups_eq_none hget]
      refine ⟨[p], mapGet_set_self _ _ _, List.mem_singleton_self p, ?_⟩
      exact List.pairwise_singleton _ _
    | some pages =>
      rw [undoGroups_eq_some hget]
      refine ⟨sortPages (pages ++ [p]), mapGet_set_self _ _ _, ?_, sorted_sortPages _⟩
      exact mem_sortPages.2 (List.mem_append.2 (Or.inr (List.mem_singleton_self p)))

/-- C6 witness: the theorem applied to a concrete two-page store with
page one selected and then removed. -/
theorem removePage_undo_spec_witness :
    (applyOp ⟨[("a.pdf", [⟨"d1", "image/png", "a.pdf", some 1⟩,
        ⟨"d2", "image/png", "a.pdf", some 2⟩])],
        [⟨"d1", "image/png", "a.pdf", some 1⟩], []⟩
      (.removePage ⟨"d1", "image/png", "a.pdf", some 1⟩)).selectedPages
        = List.filter (fun q => q.data ≠ (⟨"d1", "image/png", "a.pdf", some 1⟩ : PageData).data)
            [⟨"d1", "image/png", "a.pdf", some 1⟩]
    ∧ (∀ pages, mapGet [("a.pdf", [(⟨"d1", "image/png", "a.pdf", some 1⟩ : PageData),
          ⟨"d2", "image/png", "a.pdf", some 2⟩])]
          (⟨"d1", "image/png", "a.pdf", some 1⟩ : PageData).fileName = some pages →
        (pages.filter (fun q => q.data ≠ (⟨"d1", "image/png", "a.pdf", some 1⟩ : PageData).data) = [] →
            mapGet (applyOp ⟨[("a.pdf", [⟨"d1", "image/png", "a.pdf", some 1⟩,
                ⟨"d2", "image/png", "a.pdf", some 2⟩])],
                [⟨"d1", "image/png", "a.pdf", some 1⟩], []⟩
              (.removePage ⟨"d1", "image/png", "a.pdf", some 1⟩)).pdfFileGroups
              (⟨"d1", "image/png", "a.pdf", some 1⟩ : PageData).fileName = none)
        ∧ (pages.filter (fun q => q.data ≠ (⟨"d1", "image/png", "a.pdf", some 1⟩ : PageData).data) ≠ [] →
            mapGet (applyOp ⟨[("a.pdf", [⟨"d1", "image/png", "a.pdf", some 1⟩,
                ⟨"d2", "image/png", "a.pdf", some 2⟩])],
                [⟨"d1", "image/png", "a.pdf", some 1⟩], []⟩
              (.removePage ⟨"d1", "image/png", "a.pdf", some 1⟩)).pdfFileGroups
              (⟨"d1", "image/png", "a.pdf", some 1⟩ : PageData).fileName
              = some (pages.filter (fun q => q.data ≠ (⟨"d1", "image/png", "a.pdf", some 1⟩ : PageData).data))))
    ∧ (applyOp ⟨[("a.pdf", [⟨"d1", "image/png", "a.pdf", some 1⟩,
        ⟨"d2", "image/png", "a.pdf", some 2⟩])],
        [⟨"d1", "image/png", "a.pdf", some 1⟩], []⟩
      (.removePage ⟨"d1", "image/png", "a.pdf", some 1⟩)).deleteHistory.getLast?
        = some ⟨"d1", "image/png", "a.pdf", some 1⟩
    ∧ (([] : List PageData).length ≤ MAX_UNDO_HISTORY →
        (applyOp ⟨[("a.pdf", [⟨"d1", "image/png", "a.pdf", some 1⟩,
            ⟨"d2", "image/png", "a.pdf", some 2⟩])],
            [⟨"d1", "image/png", "a.pdf", some 1⟩], []⟩
          (.removePage ⟨"d1", "image/png", "a.pdf", some 1⟩)).deleteHistory.length
          ≤ MAX_UNDO_HISTORY)
    ∧ (applyOp (applyOp ⟨[("a.pdf", [⟨"d1", "image/png", "a.pdf", some 1⟩,
        ⟨"d2", "image/png", "a.pdf", some 2⟩])],
        [⟨"d1", "image/png", "a.pdf", some 1⟩], []⟩
      (.removePage ⟨"d1", "image/png", "a.pdf", some 1⟩)) .undoLastDelete).selectedPages
        = List.filter (fun q => q.data ≠ (⟨"d1", "image/png", "a.pdf", some 1⟩ : PageData).data)
            [⟨"d1", "image/png", "a.pdf", some 1⟩]
    ∧ ∃ pages,
        mapGet (applyOp (applyOp ⟨[("a.pdf", [⟨"d1", "image/png", "a.pdf", some 1⟩,
            ⟨"d2", "image/png", "a.pdf", some 2⟩])],
            [⟨"d1", "image/png", "a.pdf", some 1⟩], []⟩
          (.removePage ⟨"d1", "image/png", "a.pdf", some 1⟩)) .undoLastDelete).pdfFileGroups
            (⟨"d1", "image/png", "a.pdf", some 1⟩ : PageData).fileName = some pages
        ∧ (⟨"d1", "image/png", "a.pdf", some 1⟩ : PageData) ∈ pages
        ∧ pages.Pairwise (fun a b => pageKey a ≤ pageKey b) :=
  removePage_undo_spec
    ⟨[("a.pdf", [⟨"d1", "image/png", "a.pdf", some 1⟩,
        ⟨"d2", "image/png", "a.pdf", some 2⟩])],
      [⟨"d1", "image/png", "a.pdf", some 1⟩], []⟩
    ⟨"d1", "image/png", "a.pdf", some 1⟩ (by decide)

/-! ## Extraction Orchestrator

From `processDocument` (src/unnamed/part_002 lines 2131-2275 and the
matching loop in src/index.tsx 1829-1932): the run aborts before any
work when no page is selected or the provider is unavailable; otherwise
each selected page is processed in order inside a per-page `try`/`catch`
block, a success appends the extracted record and increments
`successCount`, and a failure reports a page-indexed error (the
`alert` with the 1-based page number) and continues with the next
page. -/

structure RunResult (ρ : Type) where
  allExtractedData : List ρ
  successCount : ℕ
  pageErrors : List (ℕ × String)
  totalCount : ℕ
deriving DecidableEq, Repr

/-- The per-page loop, starting at 0-based index `i`; the provider
dispatch together with one provider call is abstracted as `adapter`. -/
def processLoop {ρ : Type} (adapter : PageData → Except String ρ) :
    ℕ → List PageData → List ρ × ℕ × List (ℕ × String)
  | _, [] => ([], 0, [])
  | i, page :: rest =>
    let r := processLoop adapter (i + 1) rest
    match adapter page with
    | .ok d => (d :: r.1, r.2.1 + 1, r.2.2)
    | .error e => (r.1, r.2.1, (i + 1, e) :: r.2.2)

def processDocument {ρ : Type} (adapter : PageData → Except String ρ)
    (providerAvailable : Bool) (selectedPages : List PageData) :
    Option (RunResult ρ) :=
  if selectedPages.isEmpty then none
  else if !providerAvailable then none
  else
    let r := processLoop adapter 0 selectedPages
    some ⟨r.1, r.2.1, r.2.2, selectedPages.length⟩

lemma processLoop_counts {ρ : Type} (adapter : PageData → Except String ρ) :
    ∀ (i : ℕ) (pages : List PageData),
      (processLoop adapter i pages).2.1 + (processLoop adapter i pages).2.2.length
          = pages.length
      ∧ (processLoop adapter i pages).2.1 = (processLoop adapter i pages).1.length := by
  intro i pages
  induction pages generalizing i with
  | nil => simp [processLoop]
  | cons page rest ih =>
    simp only [processLoop]
    cases adapter page with
    | ok d =>
      obtain ⟨ha, hb⟩ := ih (i + 1)
      simp only [List.length_cons]
      constructor <;> omega
    | error e =>
      obtain ⟨ha, hb⟩ := ih (i + 1)
      simp only [List.length_cons]
      constructor <;> omega

/-- C3: every page failure is caught at the orchestrator boundary and
the run always completes with a full accounting
(`successCount + pageErrors = totalCount = selected pages`, one row per
success); in the 3-page run where only the second page's adapter call
rejects, the result is 2 successes out of 3 with exactly one page-level
error, reported for page 2. -/
theorem orchestrator_catches_page_errors {ρ : Type}
    (adapter : PageData → Except String ρ) (avail : Bool)
    (pages : List PageData) (r : RunResult ρ)
    (hr : processDocument adapter avail pages = some r)
    (p1 p2 p3 : PageData) (d1 d3 : ρ) (e : String)
    (h1 : adapter p1 = .ok d1) (h2 : adapter p2 = .error e)
    (h3 : adapter p3 = .ok d3) :
    (r.totalCount = pages.length
      ∧ r.successCount + r.pageErrors.length = pages.length
      ∧ r.successCount = r.allExtractedData.length)
    ∧ processDocument adapter true [p1, p2, p3]
        = some ⟨[d1, d3], 2, [(2, e)], 3⟩ := by
  constructor
  · unfold processDocument at hr
    split at hr
    · exact Option.noConfusion hr
    · split at hr
      · exact Option.noConfusion hr
      · obtain rfl : (⟨(processLoop adapter 0 pages).1,
            (processLoop adapter 0 pages).2.1,
            (processLoop adapter 0 pages).2.2, pages.length⟩ : RunResult ρ) = r := by
          injection hr
        obtain ⟨ha, hb⟩ := processLoop_counts adapter 0 pages
        exact ⟨rfl, ⟨ha, hb⟩⟩
  · simp [processDocument, processLoop, h1, h2, h3]

/-- C3 witness: the theorem applied to a concrete three-page run whose
second page fails. -/
theorem orchestrator_catches_page_errors_witness :
    ((⟨[7, 9], 2, [(2, "boom")], 3⟩ : RunResult ℕ).totalCount
        = [(⟨"a", "image/png", "f", some 1⟩ : PageData),
           ⟨"b", "image/png", "f", some 2⟩, ⟨"c", "image/png", "f", some 3⟩].length
      ∧ (⟨[7, 9], 2, [(2, "boom")], 3⟩ : RunResult ℕ).successCount
          + (⟨[7, 9], 2, [(2, "boom")], 3⟩ : RunResult ℕ).pageErrors.length
        = [(⟨"a", "image/png", "f", some 1⟩ : PageData),
           ⟨"b", "image/png", "f", some 2⟩, ⟨"c", "image/png", "f", some 3⟩].length
      ∧ (⟨[7, 9], 2, [(2, "boom")], 3⟩ : RunResult ℕ).successCount
        = (⟨[7, 9], 2, [(2, "boom")], 3⟩ : RunResult ℕ).allExtractedData.length)
    ∧ processDocument
        (fun p => if p.data = "b" then .error "boom" else .ok (if p.data = "a" then 7 else 9))
        true
        [⟨"a", "image/png", "f", some 1⟩, ⟨"b", "image/png", "f", some 2⟩,
         ⟨"c", "image/png", "f", some 3⟩]
        = some ⟨[7, 9], 2, [(2, "boom")], 3⟩ :=
  orchestrator_catches_page_errors
    (fun p => if p.data = "b" then .error "boom" else .ok (if p.data = "a" then 7 else 9))
    true
    [⟨"a", "image/png", "f", some 1⟩, ⟨"b", "image/png", "f", some 2⟩,
     ⟨"c", "image/png", "f", some 3⟩]
    ⟨[7, 9], 2, [(2, "boom")], 3⟩
    (by decide)
    ⟨"a", "image/png", "f", some 1⟩ ⟨"b", "image/png", "f", some 2⟩
    ⟨"c", "image/png", "f", some 3⟩ 7 9 "boom"
    rfl rfl rfl

/-! ## A small regex engine

The structured-parse sub-mode of the Upstage adapter
(src/index.tsx, `processWithUpstage`, lines 1560-1780; the Korean
literals below are the intended UTF-8 text of the repository, which the
snapshot stores with a transport-mangled encoding) mines fields with
JavaScript regexes.  The patterns use only character classes, literals,
alternation, greedy class repetition and greedy options, which the
following backtracking matcher implements with JS semantics: leftmost
match, greedy quantifiers with backtracking, alternatives tried left to
right, capturing groups collected in order. -/

inductive RE where
  | eps
  | cls (p : Char → Bool)
  | seq (a b : RE)
  | alt (a b : RE)
  | repCls (p : Char → Bool) (lo : ℕ) (hi : Option ℕ)
  | opt (r : RE)
  | grp (r : RE)

namespace RE

def firstSome {β : Type} (f : ℕ → Option β) : List ℕ → Option β
  | [] => none
  | n :: ns =>
    match f n with
    | some r => some r
    | none => firstSome f ns

/-- Continuation-based backtracking matcher; `caps` accumulates the
text consumed by each capturing group, in group order. -/
def mrun : RE → List Char → List String →
    (List Char → List String → Option (List String)) → Option (List String)
  | .eps, l, caps, k => k l caps
  | .cls p, l, caps, k =>
    match l with
    | [] => none
    | c :: rest => if p c then k rest caps else none
  | .seq a b, l, caps, k => mrun a l caps (fun l' caps' => mrun b l' caps' k)
  | .alt a b, l, caps, k =>
    match mrun a l caps k with
    | some r => some r
    | none => mrun b l caps k
  | .repCls p lo hi, l, caps, k =>
    let m := (l.takeWhile p).length
    let m' := match hi with | some h => min m h | none => m
    firstSome (fun j => k (l.drop j) caps)
      (((List.range (m' + 1)).reverse).filter (fun j => lo ≤ j))
  | .opt r, l, caps, k =>
    match mrun r l caps k with
    | some res => some res
    | none => k l caps
  | .grp r, l, caps, k =>
    mrun r l caps (fun l' caps' =>
      k l' (caps' ++ [⟨l.take (l.length - l'.length)⟩]))

/-- Try a match at each start position, left to right
(`String.prototype.match` without the `g` flag). -/
def searchFrom (r : RE) : List Char → Option (List String)
  | [] => mrun r [] [] (fun _ caps => some caps)
  | l@(_ :: rest) =>
    match mrun r l [] (fun _ caps => some caps) with
    | some caps => some caps
    | none => searchFrom r rest

end RE

def searchRE (r : RE) (s : String) : Option (List String) :=
  RE.searchFrom r s.toList

def testRE (r : RE) (s : String) : Bool := (searchRE r s).isSome

/-- `\s` (the whitespace the OCR texts can contain). -/
def wsCls (c : Char) : Bool :=
  c = ' ' || c = '\t' || c = '\n' || c = '\r' || c = '\x0b' || c = '\x0c' || c = ' '

/-- `[\d,]`. -/
def digitCommaCls (c : Char) : Bool := JSParse.isDigit c || c = ','

/-- `[₩\원]` — the currency symbol class tolerant of OCR variants. -/
def currencyCls (c : Char) : Bool := c = '₩' || c = '\\' || c = '원'

def chr (c : Char) : RE := .cls (· = c)

/-- A case-insensitive literal character (the `i` flag). -/
def chrCI (c : Char) : RE := .cls (fun x => x.toLower = c.toLower)

def seqs (l : List RE) : RE := l.foldr .seq .eps

def strCI (s : String) : RE := seqs (s.toList.map chrCI)

/-- `\d{4}년\s*\d{1,2}월\s*\d{1,2}일`. -/
def koreanDateCore : RE := seqs
  [.repCls JSParse.isDigit 4 (some 4), chr '년', .repCls wsCls 0 none,
   .repCls JSParse.isDigit 1 (some 2), chr '월', .repCls wsCls 0 none,
   .repCls JSParse.isDigit 1 (some 2), chr '일']

/-- `\d{4}\.\d{2}\.\d{2}` — note the two-digit month and day. -/
def dotDateCore : RE := seqs
  [.repCls JSParse.isDigit 4 (some 4), chr '.',
   .repCls JSParse.isDigit 2 (some 2), chr '.',
   .repCls JSParse.isDigit 2 (some 2)]

/-- `\d{4}-\d{2}-\d{2}`. -/
def dashDateCore : RE := seqs
  [.repCls JSParse.isDigit 4 (some 4), chr '-',
   .repCls JSParse.isDigit 2 (some 2), chr '-',
   .repCls JSParse.isDigit 2 (some 2)]

/-- `([\d,]+(?:\.\d+)?)` — a captured USD amount. -/
def usdAmountGrp : RE :=
  .grp (.seq (.repCls digitCommaCls 1 none)
    (.opt (.seq (chr '.') (.repCls JSParse.isDigit 1 none))))

/-- The common tail `₩?([\d,]+)\s+₩?[\d,]+\s+US\$([\d,]+(?:\.\d+)?)`
of the three charge-line regexes. -/
def chargeTail : RE := seqs
  [.repCls currencyCls 0 (some 1), .grp (.repCls digitCommaCls 1 none),
   .repCls wsCls 1 none, .repCls currencyCls 0 (some 1),
   .repCls digitCommaCls 1 none, .repCls wsCls 1 none,
   strCI "US", chr '$', usdAmountGrp]

/-- `COMMERCIAL\s+INVOICE\s+CAR?GE?\s+` then the charge tail (`i`). -/
def invoiceRE : RE := seqs
  [strCI "COMMERCIAL", .repCls wsCls 1 none, strCI "INVOICE",
   .repCls wsCls 1 none, chrCI 'C', chrCI 'A', .opt (chrCI 'R'), chrCI 'G',
   .opt (chrCI 'E'), .repCls wsCls 1 none, chargeTail]

/-- `COMMISSION\s+` then the charge tail (`i`). -/
def commissionRE : RE := seqs
  [strCI "COMMISSION", .repCls wsCls 1 none, chargeTail]

/-- `TOTAL\s+2번\s+` then the charge tail (`i`). -/
def total2RE : RE := seqs
  [strCI "TOTAL", .repCls wsCls 1 none, chr '2', chr '번',
   .repCls wsCls 1 none, chargeTail]

/-- `잔\s*액\s*[₩\원]?([\d,]+)` (`i`). -/
def balanceRE : RE := seqs
  [chr '잔', .repCls wsCls 0 none, chr '액', .repCls wsCls 0 none,
   .repCls currencyCls 0 (some 1), .grp (.repCls digitCommaCls 1 none)]

/-- `수\s*량\s*([\d,]+)\s*GT` (`i`). -/
def quantityLabelledRE : RE := seqs
  [chr '수', .repCls wsCls 0 none, chr '량', .repCls wsCls 0 none,
   .grp (.repCls digitCommaCls 1 none), .repCls wsCls 0 none, strCI "GT"]

/-- `([\d,]+)\s*GT` (`i`). -/
def quantityBareRE : RE := seqs
  [.grp (.repCls digitCommaCls 1 none), .repCls wsCls 0 none, strCI "GT"]

/-- `(\d{4}년\s*\d{1,2}월\s*\d{1,2}일|\d{4}\.\d{2}\.\d{2})` — the
fallback date pattern. -/
def fallbackDateRE : RE := .grp (.alt koreanDateCore dotDateCore)

/-- `hasSub needle hay`: `hay.includes(needle)`. -/
def hasSub (needle : List Char) : List Char → Bool
  | [] => needle.isEmpty
  | c :: t => JSParse.leadsWith needle (c :: t) || hasSub needle t

def jsIncludes (hay needle : String) : Bool := hasSub needle.toList hay.toList

/-- Global replace of the pattern `c\s*` by `rep` (the replace steps of
the date normalization); the flag records that trailing whitespace of a
match is being skipped. -/
def replaceCharWsAux (c : Char) (rep : List Char) : Bool → List Char → List Char
  | _, [] => []
  | skipping, x :: t =>
    if skipping && wsCls x then replaceCharWsAux c rep true t
    else if x = c then rep ++ replaceCharWsAux c rep true t
    else x :: replaceCharWsAux c rep false t

def replaceCharWs (c : Char) (rep : List Char) (l : List Char) : List Char :=
  replaceCharWsAux c rep false l

/-- `padStart(2, "0")`. -/
def padStart2 (s : String) : String :=
  if s.toList.length ≥ 2 then s
  else ⟨List.replicate (2 - s.toList.length) '0' ++ s.toList⟩

/-- `split(sep)` for a single-character separator. -/
def splitOnCharAux (c : Char) : List Char → List Char → List String
  | [], acc => [⟨acc.reverse⟩]
  | x :: t, acc =>
    if x = c then (⟨acc.reverse⟩ : String) :: splitOnCharAux c t []
    else splitOnCharAux c t (x :: acc)

def splitOnChar (c : Char) (s : String) : List String :=
  splitOnCharAux c s.toList []

/-- The `년/월/일` branch of the element-path date normalization:
replace `년\s*` and `월\s*` by `-`, drop `일`, then zero-pad month and
day when the split has exactly three parts. -/
def processKoreanDate (dateStr : String) : String :=
  let replaced : String :=
    ⟨(replaceCharWs '월' ['-'] (replaceCharWs '년' ['-'] dateStr.toList)).filter
      (· ≠ '일')⟩
  let parts := splitOnChar '-' replaced
  if parts.length = 3 then
    (parts.getD 0 "") ++ "-" ++ padStart2 (parts.getD 1 "") ++ "-"
      ++ padStart2 (parts.getD 2 "")
  else replaced

/-- The shared transformation of a matched date string: the Korean
branch pads, the other branch only replaces dots by hyphens. -/
def transformDateStr (m : String) : String :=
  if jsIncludes m "년" then processKoreanDate m
  else ⟨m.toList.map (fun c => if c = '.' then '-' else c)⟩

/-! ## Upstage structured-parse mining -/

/-- One entry of the `elements` array: its `category` and
`content.text` (absent `content` or `text` modelled as `none`). -/
structure UElement where
  category : String
  ctext : Option String
deriving DecidableEq, Repr

def elText (el : UElement) : String := el.ctext.getD ""

/-- Truthiness of `el.content?.text`. -/
def elHasText (el : UElement) : Bool :=
  match el.ctext with
  | some t => t ≠ ""
  | none => false

/-- The canonical record mined from the elements (initialized to empty
date and zero amounts). -/
structure MinedData where
  date : String
  quantity : JSNum
  amountUSD : JSNum
  commissionUSD : JSNum
  totalUSD : JSNum
  totalKRW : JSNum
  balanceKRW : JSNum
deriving DecidableEq, Repr

def emptyMined : MinedData := ⟨"", .fin 0, .fin 0, .fin 0, .fin 0, .fin 0, .fin 0⟩

/-- `parseFloat(capture.replace(/,/g, ""))`. -/
def parseNumCapture (cap : String) : JSNum := jsParseFloat (stripCommas cap)

def isDateElement (el : UElement) : Bool :=
  elHasText el &&
    (jsIncludes (elText el) "일 자" || jsIncludes (elText el) "작성일"
      || testRE koreanDateCore (elText el) || testRE dotDateCore (elText el))

/-- The pattern loop of the element date extraction: the first of the
three date patterns that matches supplies `match[1]`, which is then
transformed; no match leaves the date untouched. -/
def findDateMatch : List RE → String → Option String
  | [], _ => none
  | r :: rest, t =>
    match searchRE r t with
    | some caps => some (transformDateStr (caps.getD 0 ""))
    | none => findDateMatch rest t

def mineDate (els : List UElement) : String :=
  match els.find? isDateElement with
  | some el =>
    (findDateMatch [.grp koreanDateCore, .grp dotDateCore, .grp dashDateCore]
      (elText el)).getD ""
  | none => ""

def isQuantityElement (el : UElement) : Bool :=
  elHasText el && jsIncludes (elText el) "GT"

def mineQuantity (els : List UElement) : JSNum :=
  match els.find? isQuantityElement with
  | some el =>
    match searchRE quantityLabelledRE (elText el) with
    | some caps => parseNumCapture (caps.getD 0 "")
    | none =>
      match searchRE quantityBareRE (elText el) with
      | some caps => parseNumCapture (caps.getD 0 "")
      | none => .fin 0
  | none => .fin 0

def isAmountElement (el : UElement) : Bool :=
  elHasText el && el.category = "table" &&
    (jsIncludes (elText el) "COMMERCIAL INVOICE"
      || jsIncludes (elText el) "COMMISSION"
      || jsIncludes (elText el) "제품비용")

/-- The three charge-line extractions over the table element text:
invoice amount (group 2), commission amount (group 2), and the second
TOTAL line giving both the USD (group 2) and KRW (group 1) totals. -/
def mineAmounts (els : List UElement) : JSNum × JSNum × JSNum × JSNum :=
  match els.find? isAmountElement with
  | some el =>
    let t := elText el
    let amountUSD :=
      match searchRE invoiceRE t with
      | some caps => parseNumCapture (caps.getD 1 "")
      | none => .fin 0
    let commissionUSD :=
      match searchRE commissionRE t with
      | some caps => parseNumCapture (caps.getD 1 "")
      | none => .fin 0
    let totals :=
      match searchRE total2RE t with
      | some caps => (parseNumCapture (caps.getD 1 ""), parseNumCapture (caps.getD 0 ""))
      | none => (.fin 0, .fin 0)
    (amountUSD, commissionUSD, totals.1, totals.2)
  | none => (.fin 0, .fin 0, .fin 0, .fin 0)

def isBalanceElement (el : UElement) : Bool :=
  elHasText el && (jsIncludes (elText el) "잔 액" || jsIncludes (elText el) "잔액")

def mineBalance (els : List UElement) : JSNum :=
  match els.find? isBalanceElement with
  | some el =>
    match searchRE balanceRE (elText el) with
    | some caps => parseNumCapture (caps.getD 0 "")
    | none => .fin 0
  | none => .fin 0

/-- The element-mining step of the structured-parse sub-mode. -/
def mineElements (els : List UElement) : MinedData :=
  { date := mineDate els
    quantity := mineQuantity els
    amountUSD := (mineAmounts els).1
    commissionUSD := (mineAmounts els).2.1
    totalUSD := (mineAmounts els).2.2.1
    totalKRW := (mineAmounts els).2.2.2
    balanceKRW := mineBalance els }

/-- The provider response as the parse code reads it: an optional
`elements` array and the optional `content.text` / `content.markdown`
fallback blobs. -/
structure UpstageParseResult where
  elements : Option (List UElement)
  contentText : Option String
  contentMarkdown : Option String

def truthyOptStr : Option String → Bool
  | some s => s ≠ ""
  | none => false

/-- The fallback extraction over the flat text blob: only the combined
date pattern (without the zero-padding step) and the bare quantity
pattern run; every other field keeps its initial `0`. -/
def fallbackExtract (extractedText : String) : MinedData :=
  let date :=
    match searchRE fallbackDateRE extractedText with
    | some caps =>
      let m := caps.getD 0 ""
      if jsIncludes m "년" then
        (⟨(replaceCharWs '월' ['-'] (replaceCharWs '년' ['-'] m.toList)).filter
          (· ≠ '일')⟩ : String)
      else ⟨m.toList.map (fun c => if c = '.' then '-' else c)⟩
    | none => ""
  let qty :=
    match searchRE quantityBareRE extractedText with
    | some caps => parseNumCapture (caps.getD 0 "")
    | none => .fin 0
  { emptyMined with date := date, quantity := qty }

def fallbackBranch (r : UpstageParseResult) : Except String MinedData :=
  match (if truthyOptStr r.contentText then some (r.contentText.getD "")
        else if truthyOptStr r.contentMarkdown then some (r.contentMarkdown.getD "")
        else none) with
  | none => .error "unexpected response structure"
  | some et =>
    if et = "" then .error "extracted text empty"
    else .ok (fallbackExtract et)

/-- The response parsing of the structured-parse sub-mode: mine the
elements when `elements` is a non-empty array, otherwise fall back to
the flat text blob. -/
def processUpstageParse (r : UpstageParseResult) : Except String MinedData :=
  match r.elements with
  | some els => if 0 < els.length then .ok (mineElements els) else fallbackBranch r
  | none => fallbackBranch r

/-- C5 (amended): date normalization is asymmetric, but not the way the
claim states: "2024년 3월 5일" normalizes to "2024-03-05" (zero-padded
by the Korean branch), while the dot pattern requires two-digit month
and day, so "2024.3.5" matches no pattern at all and the date stays
empty; a conforming dot date such as "2024.03.05" is mapped to
"2024-03-05" by plain dot-to-hyphen replacement with no padding step. -/
theorem date_normalization_asymmetry :
    (mineElements [⟨"paragraph", some "2024년 3월 5일"⟩]).date = "2024-03-05"
    ∧ (mineElements [⟨"paragraph", some "작성일 2024.3.5"⟩]).date = ""
    ∧ (mineElements [⟨"paragraph", some "2024.03.05"⟩]).date = "2024-03-05" := by
  refine ⟨?_, ?_, ?_⟩ <;> rfl

/-- C5 counterexample: on "작성일 2024.3.5" the mined date is empty, not
the claimed "2024-3-5". -/
theorem date_dot_claim_cex :
    (mineElements [⟨"paragraph", some "작성일 2024.3.5"⟩]).date ≠ "2024-3-5" := by
  decide

/-- C7: on a table-category element containing the charge line
"COMMISSION ₩327,440 ₩32,744 US$222.34", the currency-tolerant
commission regex extracts `commissionUSD = 222.34`. -/
theorem commission_regex_extracts :
    (mineElements
      [⟨"table", some "COMMISSION ₩327,440 ₩32,744 US$222.34"⟩]).commissionUSD
      = .fin (11117 / 50) := by
  have h : (mineElements
      [⟨"table", some "COMMISSION ₩327,440 ₩32,744 US$222.34"⟩]).commissionUSD
      = jsParseFloat "222.34" := rfl
  rw [h]
  simp [jsParseFloat, JSParse.parseFloatCore, JSParse.parseDecimal,
    JSParse.leadsWith, JSParse.digitsToNat, JSParse.fracVal, JSParse.isWs,
    JSParse.isDigit, JSParse.digitVal]
  norm_num

/-- C8: whenever the structured-parse response has no `elements` array,
the fallback path runs only the date and quantity regexes over the flat
text blob, so the four amount fields and the balance field of any
successfully returned record are all `0`. -/
theorem fallback_leaves_amounts_zero (r : UpstageParseResult) (d : MinedData)
    (he : r.elements = none) (hr : processUpstageParse r = .ok d) :
    d.amountUSD = .fin 0 ∧ d.commissionUSD = .fin 0 ∧ d.totalUSD = .fin 0
    ∧ d.totalKRW = .fin 0 ∧ d.balanceKRW = .fin 0 := by
  have hr' : fallbackBranch r = .ok d := by
    unfold processUpstageParse at hr
    rw [he] at hr
    exact hr
  unfold fallbackBranch at hr'
  cases h1 : (if truthyOptStr r.contentText then some (r.contentText.getD "")
      else if truthyOptStr r.contentMarkdown then some (r.contentMarkdown.getD "")
      else none) with
  | none =>
    rw [h1] at hr'
    have hr2 : (Except.error "unexpected response structure" : Except String MinedData)
        = .ok d := hr'
    exact Except.noConfusion hr2
  | some et =>
    rw [h1] at hr'
    have hr2 : (if et = "" then
          (Except.error "extracted text empty" : Except String MinedData)
        else .ok (fallbackExtract et)) = .ok d := hr'
    split at hr2
    · exact Except.noConfusion hr2
    · obtain rfl : fallbackExtract et = d := by injection hr2
      exact ⟨rfl, rfl, rfl, rfl, rfl⟩

/-- C8 witness: the theorem applied to a concrete response carrying only
a text blob. -/
theorem fallback_leaves_amounts_zero_witness :
    (fallbackExtract "no fields here").amountUSD = .fin 0
    ∧ (fallbackExtract "no fields here").commissionUSD = .fin 0
    ∧ (fallbackExtract "no fields here").totalUSD = .fin 0
    ∧ (fallbackExtract "no fields here").totalKRW = .fin 0
    ∧ (fallbackExtract "no fields here").balanceKRW = .fin 0 :=
  fallback_leaves_amounts_zero ⟨none, some "no fields here", none⟩
    (fallbackExtract "no fields here") rfl rfl

/-! ## Usage/Cost Ledger

From src/index.tsx: `MODEL_PRICING` (63-83), `calculateCost` (85-92),
`startLogging` (221-237), `endLogging` (239-249) and
`calculateModelStats` (272-310).  Numeric fields are exact rationals;
`timestamp`/`ratedAt` epochs are likewise numbers. -/

inductive Rating where
  | like
  | dislike
deriving DecidableEq, Repr

structure UsageLog where
  id : String
  timestamp : ℚ
  provider : String
  model : String
  processingTime : ℚ
  pagesProcessed : ℚ
  inputTokens : ℚ
  outputTokens : ℚ
  totalCostUSD : ℚ
  rating : Option Rating
  ratedAt : Option ℚ
deriving DecidableEq, Repr

/-- The static price table (USD per million tokens, input and output). -/
def MODEL_PRICING : List (String × ℚ × ℚ) :=
  [("gemini-2.5-flash", 0.075, 0.30),
   ("gemini-2.5-pro", 1.25, 5.00),
   ("gemini-2.5-flash-lite-preview-06-17", 0.075, 0.30),
   ("o4-mini", 0.15, 0.60),
   ("gpt-4.1", 10.00, 30.00),
   ("gpt-4o-mini", 0.15, 0.60),
   ("gpt-4o", 2.50, 10.00),
   ("document-parse", 0.50, 1.00),
   ("llama3.2-vision:11b", 0, 0),
   ("llava:13b", 0, 0),
   ("moondream:latest", 0, 0)]

def calculateCost (modelId : String) (inputTokens outputTokens : ℚ) : ℚ :=
  match mapGet MODEL_PRICING modelId with
  | none => 0
  | some pr => inputTokens / 1000000 * pr.1 + outputTokens / 1000000 * pr.2

/-- `startLogging` appends a zero-valued entry whose `pagesProcessed` is
the page count passed by the orchestrator (the number of selected pages
at run start); the generated id and timestamp enter as parameters. -/
def startLogging (logs : List UsageLog) (logId : String) (timestamp : ℚ)
    (provider model : String) (pagesCount : ℚ) : List UsageLog :=
  logs ++ [⟨logId, timestamp, provider, model, 0, pagesCount, 0, 0, 0, none, none⟩]

/-- `endLogging` completes the first entry whose id matches
(`usageLogs.find(l => l.id === logId)`), filling exactly the duration,
token and cost fields. -/
def endLogging (logId : String) (processingTime inputTokens outputTokens : ℚ) :
    List UsageLog → List UsageLog
  | [] => []
  | l :: rest =>
    if l.id = logId then
      { l with processingTime := processingTime
               inputTokens := inputTokens
               outputTokens := outputTokens
               totalCostUSD := calculateCost l.model inputTokens outputTokens } :: rest
    else l :: endLogging logId processingTime inputTokens outputTokens rest

structure ModelStats where
  provider : String
  model : String
  totalUsage : ℚ
  totalPages : ℚ
  averageProcessingTime : ℚ
  totalInputTokens : ℚ
  totalOutputTokens : ℚ
  totalCostUSD : ℚ
  averageCostPerPage : ℚ
  likeCount : ℚ
  dislikeCount : ℚ
  preferenceScore : ℚ
deriving DecidableEq, Repr

/-- The grouping key of `calculateModelStats`. -/
def statsKey (log : UsageLog) : String := log.provider ++ "_" ++ log.model

def initStats (log : UsageLog) : ModelStats :=
  ⟨log.provider, log.model, 0, 0, 0, 0, 0, 0, 0, 0, 0, 0⟩

/-- The body of the `forEach`: increment the usage counters of the
group entry and recompute the derived running values. -/
def updateStats (log : UsageLog) (stats : ModelStats) : ModelStats :=
  let totalUsage := stats.totalUsage + 1
  let totalPages := stats.totalPages + log.pagesProcessed
  let averageProcessingTime :=
    ((stats.averageProcessingTime * (totalUsage - 1)) + log.processingTime) / totalUsage
  let totalInputTokens := stats.totalInputTokens + log.inputTokens
  let totalOutputTokens := stats.totalOutputTokens + log.outputTokens
  let totalCostUSD := stats.totalCostUSD + log.totalCostUSD
  let averageCostPerPage := if 0 < totalPages then totalCostUSD / totalPages else 0
  let likeCount :=
    if log.rating = some .like then stats.likeCount + 1 else stats.likeCount
  let dislikeCount :=
    if log.rating = some .dislike then stats.dislikeCount + 1 else stats.dislikeCount
  let preferenceScore :=
    if 0 < totalUsage then (likeCount - dislikeCount) / totalUsage else 0
  ⟨stats.provider, stats.model, totalUsage, totalPages, averageProcessingTime,
    totalInputTokens, totalOutputTokens, totalCostUSD, averageCostPerPage,
    likeCount, dislikeCount, preferenceScore⟩

def mapUpdate {α : Type} : List (String × α) → String → (α → α) → List (String × α)
  | [], _, _ => []
  | (k', v) :: rest, k, f =>
    if k' = k then (k', f v) :: rest else (k', v) :: mapUpdate rest k f

/-- One `forEach` iteration over the `Map`: create the zero entry when
the key is new, then mutate the entry in place. -/
def statsStep (m : List (String × ModelStats)) (log : UsageLog) :
    List (String × ModelStats) :=
  let m1 := if mapHas m (statsKey log) then m else m ++ [(statsKey log, initStats log)]
  mapUpdate m1 (statsKey log) (updateStats log)

/-- Stable insertion for the comparator
`(a, b) => b.preferenceScore - a.preferenceScore`. -/
def insertStatsDesc (x : ModelStats) : List ModelStats → List ModelStats
  | [] => [x]
  | y :: ys =>
    if x.preferenceScore ≤ y.preferenceScore then y :: insertStatsDesc x ys
    else x :: y :: ys

def sortStatsDesc : List ModelStats → List ModelStats
  | [] => []
  | x :: xs => insertStatsDesc x (sortStatsDesc xs)

def calculateModelStats (logs : List UsageLog) : List ModelStats :=
  sortStatsDesc ((logs.foldl statsStep []).map Prod.snd)

/-- The insertion-ordered distinct grouping keys of a ledger. -/
def distinctKeys (logs : List UsageLog) : List String :=
  logs.foldl (fun ks l => if statsKey l ∈ ks then ks else ks ++ [statsKey l]) []

section StatsLemmas

lemma keys_mapUpdate {α : Type} (m : List (String × α)) (k : String) (f : α → α) :
    (mapUpdate m k f).map Prod.fst = m.map Prod.fst := by
  induction m with
  | nil => rfl
  | cons hd t ih =>
    obtain ⟨k', v⟩ := hd
    by_cases hk : k' = k
    · simp [mapUpdate, hk]
    · simp [mapUpdate, hk, ih]

lemma mem_mapUpdate_strong {α : Type} {m : List (String × α)} {k : String}
    {f : α → α} {e : String × α} (hn : (m.map Prod.fst).Nodup)
    (h : e ∈ mapUpdate m k f) :
    (e ∈ m ∧ e.1 ≠ k) ∨ ∃ v, (k, v) ∈ m ∧ e = (k, f v) := by
  induction m with
  | nil => simp [mapUpdate] at h
  | cons hd t ih =>
    obtain ⟨k', v⟩ := hd
    simp only [List.map_cons, List.nodup_cons] at hn
    by_cases hk : k' = k
    · subst hk
      simp only [mapUpdate, if_pos rfl] at h
      rcases List.mem_cons.1 h with rfl | h
      · exact Or.inr ⟨v, List.mem_cons_self _ _, rfl⟩
      · refine Or.inl ⟨List.mem_cons_of_mem _ h, fun he => ?_⟩
        exact hn.1 (List.mem_map.2 ⟨e, h, he⟩)
    · simp only [mapUpdate, if_neg hk] at h
      rcases List.mem_cons.1 h with rfl | h
      · exact Or.inl ⟨List.mem_cons_self _ _, hk⟩
      · rcases ih hn.2 h with ⟨he, hne⟩ | ⟨w, hw, he⟩
        · exact Or.inl ⟨List.mem_cons_of_mem _ he, hne⟩
        · exact Or.inr ⟨w, List.mem_cons_of_mem _ hw, he⟩

/-- The per-group properties the claim computes: a strictly positive
usage count and the preference-score formula. -/
def StatsP (s : ModelStats) : Prop :=
  0 < s.totalUsage
  ∧ s.preferenceScore = (s.likeCount - s.dislikeCount) / s.totalUsage

lemma statsP_update (log : UsageLog) (s : ModelStats) (h : 0 ≤ s.totalUsage) :
    StatsP (updateStats log s) := by
  have hpos : (0 : ℚ) < s.totalUsage + 1 := by linarith
  refine ⟨hpos, ?_⟩
  show (if 0 < s.totalUsage + 1 then
      ((if log.rating = some .like then s.likeCount + 1 else s.likeCount)
        - (if log.rating = some .dislike then s.dislikeCount + 1 else s.dislikeCount))
        / (s.totalUsage + 1)
    else 0) = _
  rw [if_pos hpos]
  rfl

def StatsInv (m : List (String × ModelStats)) : Prop :=
  (m.map Prod.fst).Nodup ∧ ∀ e ∈ m, StatsP e.2

lemma keys_statsStep (m : List (String × ModelStats)) (log : UsageLog) :
    (statsStep m log).map Prod.fst =
      if statsKey log ∈ m.map Prod.fst then m.map Prod.fst
      else m.map Prod.fst ++ [statsKey log] := by
  unfold statsStep
  by_cases hhas : mapHas m (statsKey log)
  · rw [if_pos hhas, keys_mapUpdate, if_pos (mapHas_iff.1 hhas)]
  · rw [if_neg hhas, keys_mapUpdate, List.map_append,
      if_neg (fun hc => hhas (mapHas_iff.2 hc))]
    rfl

lemma statsInv_step {m : List (String × ModelStats)} (log : UsageLog)
    (hInv : StatsInv m) : StatsInv (statsStep m log) := by
  obtain ⟨hnodup, hP⟩ := hInv
  constructor
  · rw [keys_statsStep]
    split
    · exact hnodup
    · next hnot =>
      rw [List.nodup_append]
      refine ⟨hnodup, List.nodup_singleton _, fun a ha hb => ?_⟩
      rw [List.mem_singleton] at hb
      subst hb
      exact hnot ha
  · intro e he
    unfold statsStep at he
    by_cases hhas : mapHas m (statsKey log)
    · rw [if_pos hhas] at he
      rcases mem_mapUpdate_strong hnodup he with ⟨hm, _⟩ | ⟨v, hv, rfl⟩
      · exact hP e hm
      · exact statsP_update log v (le_of_lt (hP (statsKey log, v) hv).1)
    · rw [if_neg hhas] at he
      have hn1 : ((m ++ [(statsKey log, initStats log)]).map Prod.fst).Nodup := by
        rw [List.map_append, List.nodup_append]
        refine ⟨hnodup, List.nodup_singleton _, fun a ha hb => ?_⟩
        rw [List.map_cons, List.map_nil, List.mem_singleton] at hb
        subst hb
        exact hhas (mapHas_iff.2 ha)
      rcases mem_mapUpdate_strong hn1 he with ⟨hm, hne⟩ | ⟨v, hv, rfl⟩
      · rcases List.mem_append.1 hm with hm | hm
        · exact hP e hm
        · rw [List.mem_singleton] at hm
          exact absurd (by rw [hm]) hne
      · rcases List.mem_append.1 hv with hv | hv
        · exact statsP_update log v (le_of_lt (hP (statsKey log, v) hv).1)
        · rw [List.mem_singleton] at hv
          have h2 : v = initStats log := congrArg Prod.snd hv
          subst h2
          exact statsP_update log _ (le_refl 0)

lemma statsInv_fold (logs : List UsageLog) :
    ∀ m, StatsInv m → StatsInv (logs.foldl statsStep m) := by
  induction logs with
  | nil => exact fun m hm => hm
  | cons l t ih => exact fun m hm => ih _ (statsInv_step l hm)

lemma mem_insertStatsDesc {x y : ModelStats} {l : List ModelStats} :
    x ∈ insertStatsDesc y l ↔ x = y ∨ x ∈ l := by
  induction l with
  | nil => simp [insertStatsDesc]
  | cons z zs ih =>
    simp only [insertStatsDesc]
    split
    · simp only [List.mem_cons, ih]
      tauto
    · simp [List.mem_cons]

lemma mem_sortStatsDesc {x : ModelStats} {l : List ModelStats} :
    x ∈ sortStatsDesc l ↔ x ∈ l := by
  induction l with
  | nil => simp [sortStatsDesc]
  | cons y ys ih => simp [sortStatsDesc, mem_insertStatsDesc, ih]

lemma sorted_insertStatsDesc {x : ModelStats} {l : List ModelStats}
    (h : l.Pairwise (fun a b => b.preferenceScore ≤ a.preferenceScore)) :
    (insertStatsDesc x l).Pairwise
      (fun a b => b.preferenceScore ≤ a.preferenceScore) := by
  induction l with
  | nil => simp [insertStatsDesc]
  | cons y ys ih =>
    rcases List.pairwise_cons.1 h with ⟨hy, hys⟩
    simp only [insertStatsDesc]
    split
    · next hle =>
      refine List.pairwise_cons.2 ⟨fun b hb => ?_, ih hys⟩
      rcases mem_insertStatsDesc.1 hb with rfl | hb
      · exact hle
      · exact hy b hb
    · next hgt =>
      refine List.pairwise_cons.2 ⟨fun b hb => ?_, h⟩
      rcases List.mem_cons.1 hb with rfl | hb
      · exact le_of_not_le hgt
      · exact le_trans (hy b hb) (le_of_not_le hgt)

lemma sorted_sortStatsDesc (l : List ModelStats) :
    (sortStatsDesc l).Pairwise
      (fun a b => b.preferenceScore ≤ a.preferenceScore) := by
  induction l with
  | nil => simp [sortStatsDesc]
  | cons x xs ih => exact sorted_insertStatsDesc ih

lemma length_insertStatsDesc (x : ModelStats) (l : List ModelStats) :
    (insertStatsDesc x l).length = l.length + 1 := by
  induction l with
  | nil => rfl
  | cons y ys ih =>
    simp only [insertStatsDesc]
    split
    · simp [ih]
    · simp

lemma length_sortStatsDesc (l : List ModelStats) :
    (sortStatsDesc l).length = l.length := by
  induction l with
  | nil => rfl
  | cons x xs ih => simp [sortStatsDesc, length_insertStatsDesc, ih]

lemma keys_statsFold (logs : List UsageLog) :
    ∀ ks : List (String × ModelStats),
      (logs.foldl statsStep ks).map Prod.fst
        = logs.foldl
            (fun acc l => if statsKey l ∈ acc then acc else acc ++ [statsKey l])
            (ks.map Prod.fst) := by
  induction logs with
  | nil => intro ks; rfl
  | cons l t ih =>
    intro ks
    simp only [List.foldl_cons]
    rw [ih, keys_statsStep]

end StatsLemmas

/-- A one-field-varying ledger entry for the concrete rating example. -/
def mkLog (i : String) (r : Option Rating) : UsageLog :=
  ⟨i, 0, "gemini", "gemini-2.5-flash", 0, 0, 0, 0, 0, r, none⟩

/-- C9 (amended): `calculateModelStats` groups entries by the
concatenated key `provider + "_" + model` (one stats entry per distinct
key), computes for each group `preferenceScore =
(likeCount - dislikeCount) / totalUsage` — so 3 likes, 1 dislike and 5
uses score `0.4` — and returns the list sorted in descending order of
`preferenceScore`.  (Grouping by the underscore-joined key coincides
with grouping by the pair only when the names embed no underscore
ambiguity; see the counterexample.) -/
theorem aggregate_stats_spec (logs : List UsageLog) :
    (calculateModelStats logs).Pairwise
      (fun a b => b.preferenceScore ≤ a.preferenceScore)
    ∧ (∀ s ∈ calculateModelStats logs,
        0 < s.totalUsage
        ∧ s.preferenceScore = (s.likeCount - s.dislikeCount) / s.totalUsage)
    ∧ (calculateModelStats logs).length = (distinctKeys logs).length
    ∧ (∃ s, calculateModelStats
          [mkLog "1" (some .like), mkLog "2" (some .like), mkLog "3" (some .like),
           mkLog "4" (some .dislike), mkLog "5" none] = [s]
        ∧ s.likeCount = 3 ∧ s.dislikeCount = 1 ∧ s.totalUsage = 5
        ∧ s.preferenceScore = 2 / 5) := by
  refine ⟨sorted_sortStatsDesc _, ?_, ?_, ?_⟩
  · intro s hs
    rw [calculateModelStats, mem_sortStatsDesc] at hs
    obtain ⟨e, he, rfl⟩ := List.mem_map.1 hs
    have hInv : StatsInv (logs.foldl statsStep []) :=
      statsInv_fold logs [] ⟨List.nodup_nil, by simp⟩
    exact hInv.2 e he
  · rw [calculateModelStats, length_sortStatsDesc, List.length_map]
    have h := keys_statsFold logs []
    calc (logs.foldl statsStep []).length
        = ((logs.foldl statsStep []).map Prod.fst).length :=
          (List.length_map _ _).symm
      _ = (distinctKeys logs).length := by rw [h]; rfl
  · refine ⟨_, rfl, ?_, ?_, ?_, ?_⟩ <;>
      simp [calculateModelStats, statsStep, mapHas, mapUpdate, statsKey, initStats,
        updateStats, sortStatsDesc, insertStatsDesc, mkLog] <;> norm_num

/-- C9 counterexample: two entries with different (provider, model)
pairs but the same concatenated key are merged into a single stats
entry, so `calculateModelStats` does not group by the pair. -/
theorem aggregate_grouping_claim_cex :
    (calculateModelStats
      [⟨"1", 0, "a", "b_c", 0, 0, 0, 0, 0, none, none⟩,
       ⟨"2", 0, "a_b", "c", 0, 0, 0, 0, 0, none, none⟩]).length = 1
    ∧ ((("a" : String), ("b_c" : String)) ≠ (("a_b" : String), ("c" : String)))
    ∧ ∃ s, calculateModelStats
        [⟨"1", 0, "a", "b_c", 0, 0, 0, 0, 0, none, none⟩,
         ⟨"2", 0, "a_b", "c", 0, 0, 0, 0, 0, none, none⟩] = [s]
        ∧ s.totalUsage = 2 := by
  refine ⟨rfl, by decide, _, rfl, ?_⟩
  simp [calculateModelStats, statsStep, mapHas, mapUpdate, statsKey, initStats,
    updateStats, sortStatsDesc, insertStatsDesc]
  norm_num

/-- C9 witness: the amended theorem applied to the concrete five-entry
ledger. -/
theorem aggregate_stats_spec_witness :
    (calculateModelStats
      [mkLog "1" (some .like), mkLog "2" (some .like), mkLog "3" (some .like),
       mkLog "4" (some .dislike), mkLog "5" none]).Pairwise
      (fun a b => b.preferenceScore ≤ a.preferenceScore)
    ∧ (calculateModelStats
        [mkLog "1" (some .like), mkLog "2" (some .like), mkLog "3" (some .like),
         mkLog "4" (some .dislike), mkLog "5" none]).length
      = (distinctKeys
          [mkLog "1" (some .like), mkLog "2" (some .like), mkLog "3" (some .like),
           mkLog "4" (some .dislike), mkLog "5" none]).length :=
  ⟨(aggregate_stats_spec
      [mkLog "1" (some .like), mkLog "2" (some .like), mkLog "3" (some .like),
       mkLog "4" (some .dislike), mkLog "5" none]).1,
   (aggregate_stats_spec
      [mkLog "1" (some .like), mkLog "2" (some .like), mkLog "3" (some .like),
       mkLog "4" (some .dislike), mkLog "5" none]).2.2.1⟩

lemma endLogging_eq_pos {l0 : UsageLog} {logId : String} {pt it ot : ℚ}
    {rest : List UsageLog} (h0 : l0.id = logId) :
    endLogging logId pt it ot (l0 :: rest) =
      { l0 with
        processingTime := pt
        inputTokens := it
        outputTokens := ot
        totalCostUSD := calculateCost l0.model it ot } :: rest := by
  simp [endLogging, h0]

lemma endLogging_eq_neg {l0 : UsageLog} {logId : String} {pt it ot : ℚ}
    {rest : List UsageLog} (h0 : ¬ l0.id = logId) :
    endLogging logId pt it ot (l0 :: rest) =
      l0 :: endLogging logId pt it ot rest := by
  simp [endLogging, h0]

lemma endLogging_length (logId : String) (pt it ot : ℚ) :
    ∀ logs : List UsageLog, (endLogging logId pt it ot logs).length = logs.length := by
  intro logs
  induction logs with
  | nil => rfl
  | cons l0 rest ih =>
    by_cases h0 : l0.id = logId
    · rw [endLogging_eq_pos h0]
      simp
    · rw [endLogging_eq_neg h0]
      simpa using ih

lemma endLogging_preserves (logId : String) (pt it ot : ℚ) :
    ∀ (logs : List UsageLog) (i : ℕ) (l l' : UsageLog),
      logs.get? i = some l →
      (endLogging logId pt it ot logs).get? i = some l' →
      l'.id = l.id ∧ l'.timestamp = l.timestamp ∧ l'.provider = l.provider
      ∧ l'.model = l.model ∧ l'.pagesProcessed = l.pagesProcessed
      ∧ l'.rating = l.rating ∧ l'.ratedAt = l.ratedAt := by
  intro logs
  induction logs with
  | nil =>
    intro i l l' hl _
    simp at hl
  | cons l0 rest ih =>
    intro i l l' hl hl'
    by_cases h0 : l0.id = logId
    · rw [endLogging_eq_pos h0] at hl'
      cases i with
      | zero =>
        rw [List.get?_cons_zero] at hl hl'
        obtain rfl : l0 = l := by injection hl
        obtain rfl : { l0 with
            processingTime := pt
            inputTokens := it
            outputTokens := ot
            totalCostUSD := calculateCost l0.model it ot } = l' := by injection hl'
        exact ⟨rfl, rfl, rfl, rfl, rfl, rfl, rfl⟩
      | succ i =>
        rw [List.get?_cons_succ] at hl hl'
        rw [hl] at hl'
        obtain rfl : l = l' := by injection hl'
        exact ⟨rfl, rfl, rfl, rfl, rfl, rfl, rfl⟩
    · rw [endLogging_eq_neg h0] at hl'
      cases i with
      | zero =>
        rw [List.get?_cons_zero] at hl hl'
        obtain rfl : l0 = l := by injection hl
        obtain rfl : l0 = l' := by injection hl'
        exact ⟨rfl, rfl, rfl, rfl, rfl, rfl, rfl⟩
      | succ i =>
        rw [List.get?_cons_succ] at hl hl'
        exact ih i l l' hl hl'

lemma endLogging_other_unchanged (logId : String) (pt it ot : ℚ) :
    ∀ (logs : List UsageLog) (i : ℕ) (l : UsageLog),
      logs.get? i = some l → l.id ≠ logId →
      (endLogging logId pt it ot logs).get? i = some l := by
  intro logs
  induction logs with
  | nil =>
    intro i l hl _
    simp at hl
  | cons l0 rest ih =>
    intro i l hl hne
    by_cases h0 : l0.id = logId
    · rw [endLogging_eq_pos h0]
      cases i with
      | zero =>
        rw [List.get?_cons_zero] at hl
        obtain rfl : l0 = l := by injection hl
        exact absurd h0 hne
      | succ i =>
        rw [List.get?_cons_succ] at hl ⊢
        exact hl
    · rw [endLogging_eq_neg h0]
      cases i with
      | zero =>
        rw [List.get?_cons_zero] at hl ⊢
        exact hl
      | succ i =>
        rw [List.get?_cons_succ] at hl ⊢
        exact ih i l hl hne

lemma endLogging_first_match (logId : String) (pt it ot : ℚ) :
    ∀ (logs : List UsageLog) (i : ℕ) (l : UsageLog),
      logs.get? i = some l → l.id = logId →
      (∀ j, j < i → ∀ lj, logs.get? j = some lj → lj.id ≠ logId) →
      (endLogging logId pt it ot logs).get? i = some
        { l with
          processingTime := pt
          inputTokens := it
          outputTokens := ot
          totalCostUSD := calculateCost l.model it ot } := by
  intro logs
  induction logs with
  | nil =>
    intro i l hl _ _
    simp at hl
  | cons l0 rest ih =>
    intro i l hl hid hfirst
    cases i with
    | zero =>
      rw [List.get?_cons_zero] at hl
      obtain rfl : l0 = l := by injection hl
      rw [endLogging_eq_pos hid, List.get?_cons_zero]
    | succ i =>
      rw [List.get?_cons_succ] at hl
      have h0 : l0.id ≠ logId :=
        hfirst 0 (Nat.succ_pos i) l0 List.get?_cons_zero
      rw [endLogging_eq_neg h0, List.get?_cons_succ]
      exact ih i l hl hid
        (fun j hj lj hlj =>
          hfirst (j + 1) (Nat.succ_lt_succ hj) lj
            (by rw [List.get?_cons_succ]; exact hlj))

/-- C10: `endLogging logId pt it ot` keeps every entry count, changes
only the `processingTime`, `inputTokens`, `outputTokens` and
`totalCostUSD` fields of the first entry whose id matches, and leaves
`id`, `timestamp`, `provider`, `model`, `pagesProcessed`, `rating` and
`ratedAt` of every entry, and all non-matching entries entirely,
unchanged; `startLogging` is what fixes `pagesProcessed` to the page
count passed at run start, so it survives the completion untouched. -/
theorem endLogging_frame (logs : List UsageLog) (logId : String) (pt it ot : ℚ) :
    (endLogging logId pt it ot logs).length = logs.length
    ∧ (∀ i l l', logs.get? i = some l →
        (endLogging logId pt it ot logs).get? i = some l' →
        l'.id = l.id ∧ l'.timestamp = l.timestamp ∧ l'.provider = l.provider
        ∧ l'.model = l.model ∧ l'.pagesProcessed = l.pagesProcessed
        ∧ l'.rating = l.rating ∧ l'.ratedAt = l.ratedAt)
    ∧ (∀ i l, logs.get? i = some l → l.id ≠ logId →
        (endLogging logId pt it ot logs).get? i = some l)
    ∧ (∀ i l, logs.get? i = some l → l.id = logId →
        (∀ j, j < i → ∀ lj, logs.get? j = some lj → lj.id ≠ logId) →
        (endLogging logId pt it ot logs).get? i = some
          { l with
            processingTime := pt
            inputTokens := it
            outputTokens := ot
            totalCostUSD := calculateCost l.model it ot })
    ∧ (∀ (ts : ℚ) (prov mdl : String) (pagesCount : ℚ),
        (startLogging logs logId ts prov mdl pagesCount).getLast?
          = some ⟨logId, ts, prov, mdl, 0, pagesCount, 0, 0, 0, none, none⟩) :=
  ⟨endLogging_length logId pt it ot logs,
   endLogging_preserves logId pt it ot logs,
   endLogging_other_unchanged logId pt it ot logs,
   endLogging_first_match logId pt it ot logs,
   fun _ _ _ _ => List.getLast?_concat _⟩

/-- C10 witness: the frame theorem applied to a concrete two-entry
ledger, completing the second entry. -/
theorem endLogging_frame_witness :
    (endLogging "b" 1 2 3
        [⟨"a", 0, "gemini", "m", 0, 4, 0, 0, 0, none, none⟩,
         ⟨"b", 0, "gemini", "m", 0, 5, 0, 0, 0, none, none⟩]).get? 0
      = some ⟨"a", 0, "gemini", "m", 0, 4, 0, 0, 0, none, none⟩
    ∧ (endLogging "b" 1 2 3
        [⟨"a", 0, "gemini", "m", 0, 4, 0, 0, 0, none, none⟩,
         ⟨"b", 0, "gemini", "m", 0, 5, 0, 0, 0, none, none⟩]).get? 1
      = some { (⟨"b", 0, "gemini", "m", 0, 5, 0, 0, 0, none, none⟩ : UsageLog) with
          processingTime := 1
          inputTokens := 2
          outputTokens := 3
          totalCostUSD := calculateCost "m" 2 3 } :=
  ⟨(endLogging_frame
      [⟨"a", 0, "gemini", "m", 0, 4, 0, 0, 0, none, none⟩,
       ⟨"b", 0, "gemini", "m", 0, 5, 0, 0, 0, none, none⟩] "b" 1 2 3).2.2.1
      0 ⟨"a", 0, "gemini", "m", 0, 4, 0, 0, 0, none, none⟩ rfl (by decide),
   (endLogging_frame
      [⟨"a", 0, "gemini", "m", 0, 4, 0, 0, 0, none, none⟩,
       ⟨"b", 0, "gemini", "m", 0, 5, 0, 0, 0, none, none⟩] "b" 1 2 3).2.2.2.1
      1 ⟨"b", 0, "gemini", "m", 0, 5, 0, 0, 0, none, none⟩ rfl rfl
      (fun j hj lj hlj => by
        have hj0 : j = 0 := by omega
        subst hj0
        rw [List.get?_cons_zero] at hlj
        obtain rfl : (⟨"a", 0, "gemini", "m", 0, 4, 0, 0, 0, none, none⟩ : UsageLog)
            = lj := by injection hlj
        decide)⟩
